import Mathlib

/-!
Verification of the run-orchestration subsystem of the kimi-coding-agent
repository: workspace snapshot/restore, sandboxed command running, the
sequential agent pipeline, SQLite step bookkeeping, and artifact packaging.

The Python sources are shallowly embedded as executable Lean definitions:
filesystem state is an explicit association list from paths (segment lists)
to file nodes, subprocess execution and PATH lookup are oracle parameters,
and JSON serialization (the stdlib json.dumps/json.loads pair used by the
packager) is modelled by an executable renderer and parser over character
lists.
-/

/-! ## JSON values

Model of the Python objects that the repository serializes with
json.dumps(..., indent=2) and reads back with json.loads: None, bool, int,
str, list, and dict with string keys.  Numbers are modelled as integers
(the orchestrator's payloads carry no floats).  Strings are lists of
characters.
-/

mutual

inductive JVal where
  | jnull : JVal
  | jbool (b : Bool) : JVal
  | jint (n : Int) : JVal
  | jstr (s : List Char) : JVal
  | jarr (xs : JList) : JVal
  | jobj (ms : JMembers) : JVal
  deriving DecidableEq

inductive JList where
  | nil : JList
  | cons (v : JVal) (tl : JList) : JList
  deriving DecidableEq

inductive JMembers where
  | nil : JMembers
  | cons (k : List Char) (v : JVal) (tl : JMembers) : JMembers
  deriving DecidableEq

end

/-! ### Serializer: model of json.dumps(value, indent=2)

Follows the output of Python's json encoder with indent=2: containers open
with a newline, children are indented two further spaces, the item
separator is a comma followed by a newline, and the key separator is a
colon followed by one space.  Empty containers render without inner
whitespace.  Mandatory string escapes (quote, backslash, the named control
escapes, and a four-hex-digit u-escape for the remaining control
characters) are modelled; the encoder's additional ensure_ascii escaping of
non-ASCII characters is elided since it does not affect which value the
text denotes.
-/

def digitChar (n : Nat) : Char := Char.ofNat (48 + n)

def digitVal (c : Char) : Nat := c.toNat - 48

def isDigitChar (c : Char) : Bool := decide ('0' ≤ c) && decide (c ≤ '9')

def natToChars (n : Nat) : List Char :=
  if h : n < 10 then [digitChar n]
  else natToChars (n / 10) ++ [digitChar (n % 10)]
  decreasing_by
    exact Nat.div_lt_self (Nat.lt_of_lt_of_le (by decide) (Nat.le_of_not_lt h)) (by decide)

def intToChars (n : Int) : List Char :=
  if n < 0 then '-' :: natToChars n.natAbs else natToChars n.toNat

def hexDigitChar (n : Nat) : Char :=
  if n < 10 then digitChar n else Char.ofNat (97 + (n - 10))

def escapeChar (c : Char) : List Char :=
  if c = '"' then ['\\', '"']
  else if c = '\\' then ['\\', '\\']
  else if c = Char.ofNat 8 then ['\\', 'b']
  else if c = Char.ofNat 12 then ['\\', 'f']
  else if c = '\n' then ['\\', 'n']
  else if c = '\r' then ['\\', 'r']
  else if c = '\t' then ['\\', 't']
  else if c.toNat < 32 then
    ['\\', 'u', '0', '0', hexDigitChar (c.toNat / 16), hexDigitChar (c.toNat % 16)]
  else [c]

def escapeStr (s : List Char) : List Char := s.flatMap escapeChar

def nSpaces (n : Nat) : List Char := List.replicate n ' '

mutual

def renderVal (ind : Nat) : JVal → List Char
  | .jnull => ['n', 'u', 'l', 'l']
  | .jbool true => ['t', 'r', 'u', 'e']
  | .jbool false => ['f', 'a', 'l', 's', 'e']
  | .jint n => intToChars n
  | .jstr s => '"' :: (escapeStr s ++ ['"'])
  | .jarr xs =>
    match xs with
    | .nil => ['[', ']']
    | .cons _ _ => '[' :: '\n' :: (renderItems (ind + 2) xs ++ '\n' :: (nSpaces ind ++ [']']))
  | .jobj ms =>
    match ms with
    | .nil => ['\x7b', '\x7d']
    | .cons _ _ _ => '\x7b' :: '\n' :: (renderMembers (ind + 2) ms ++ '\n' :: (nSpaces ind ++ ['\x7d']))

def renderItems (ind : Nat) : JList → List Char
  | .nil => []
  | .cons v .nil => nSpaces ind ++ renderVal ind v
  | .cons v (.cons w tl) =>
    nSpaces ind ++ (renderVal ind v ++ ',' :: '\n' :: renderItems ind (JList.cons w tl))

def renderMembers (ind : Nat) : JMembers → List Char
  | .nil => []
  | .cons k v .nil =>
    nSpaces ind ++ ('"' :: (escapeStr k ++ '"' :: ':' :: ' ' :: renderVal ind v))
  | .cons k v (.cons k2 v2 tl) =>
    nSpaces ind ++
      ('"' :: (escapeStr k ++ '"' :: ':' :: ' ' ::
        (renderVal ind v ++ ',' :: '\n' :: renderMembers ind (JMembers.cons k2 v2 tl))))

end

/-- Model of json.dumps(value, indent=2) as called by the packagers. -/
def pyJsonDumps (v : JVal) : List Char := renderVal 0 v

/-! ### Parser: model of json.loads restricted to the grammar above -/

def isWsChar (c : Char) : Bool := c = ' ' || c = '\n' || c = '\t' || c = '\r'

def skipWs : List Char → List Char
  | [] => []
  | c :: rest => if isWsChar c then skipWs rest else c :: rest

def parseDigitsAux (acc : Nat) : List Char → Nat × List Char
  | [] => (acc, [])
  | c :: rest =>
    if isDigitChar c then parseDigitsAux (acc * 10 + digitVal c) rest else (acc, c :: rest)

def isHexChar (c : Char) : Bool :=
  isDigitChar c || (decide ('a' ≤ c) && decide (c ≤ 'f'))

def hexVal (c : Char) : Nat :=
  if isDigitChar c then digitVal c else c.toNat - 87

def consFst (c : Char) (p : List Char × List Char) : List Char × List Char :=
  (c :: p.1, p.2)

def parseStrAux : List Char → Option (List Char × List Char)
  | [] => none
  | c :: rest =>
    if c = '"' then some ([], rest)
    else if c = '\\' then
      match rest with
      | [] => none
      | e :: r =>
        if e = '"' then (parseStrAux r).map (consFst '"')
        else if e = '\\' then (parseStrAux r).map (consFst '\\')
        else if e = '/' then (parseStrAux r).map (consFst '/')
        else if e = 'b' then (parseStrAux r).map (consFst (Char.ofNat 8))
        else if e = 'f' then (parseStrAux r).map (consFst (Char.ofNat 12))
        else if e = 'n' then (parseStrAux r).map (consFst '\n')
        else if e = 'r' then (parseStrAux r).map (consFst '\r')
        else if e = 't' then (parseStrAux r).map (consFst '\t')
        else if e = 'u' then
          match r with
          | a :: b :: c2 :: d :: r2 =>
            if isHexChar a && isHexChar b && isHexChar c2 && isHexChar d then
              (parseStrAux r2).map
                (consFst (Char.ofNat (hexVal a * 4096 + hexVal b * 256 + hexVal c2 * 16 + hexVal d)))
            else none
          | _ => none
        else none
    else if c.toNat < 32 then none else (parseStrAux rest).map (consFst c)

mutual

def parseVal : Nat → List Char → Option (JVal × List Char)
  | 0, _ => none
  | fuel + 1, s =>
    match skipWs s with
    | [] => none
    | c :: rest =>
      if c = 'n' then
        match rest with
        | 'u' :: 'l' :: 'l' :: r => some (.jnull, r)
        | _ => none
      else if c = 't' then
        match rest with
        | 'r' :: 'u' :: 'e' :: r => some (.jbool true, r)
        | _ => none
      else if c = 'f' then
        match rest with
        | 'a' :: 'l' :: 's' :: 'e' :: r => some (.jbool false, r)
        | _ => none
      else if c = '"' then (parseStrAux rest).map (fun p => (.jstr p.1, p.2))
      else if c = '[' then
        match skipWs rest with
        | d :: r2 =>
          if d = ']' then some (.jarr .nil, r2)
          else (parseItems fuel rest).map (fun p => (.jarr p.1, p.2))
        | [] => (parseItems fuel rest).map (fun p => (.jarr p.1, p.2))
      else if c = '\x7b' then
        match skipWs rest with
        | d :: r2 =>
          if d = '\x7d' then some (.jobj .nil, r2)
          else (parseMembers fuel rest).map (fun p => (.jobj p.1, p.2))
        | [] => (parseMembers fuel rest).map (fun p => (.jobj p.1, p.2))
      else if c = '-' then
        match rest with
        | d :: _ =>
          if isDigitChar d then
            let p := parseDigitsAux 0 rest
            some (.jint (-(p.1 : Int)), p.2)
          else none
        | [] => none
      else if isDigitChar c then
        let p := parseDigitsAux 0 (c :: rest)
        some (.jint (p.1 : Int), p.2)
      else none

def parseItems : Nat → List Char → Option (JList × List Char)
  | 0, _ => none
  | fuel + 1, s =>
    match parseVal fuel s with
    | none => none
    | some (v, r1) =>
      match skipWs r1 with
      | d :: r2 =>
        if d = ',' then
          match parseItems fuel r2 with
          | none => none
          | some (vs, r3) => some (.cons v vs, r3)
        else if d = ']' then some (.cons v .nil, r2)
        else none
      | [] => none

def parseMembers : Nat → List Char → Option (JMembers × List Char)
  | 0, _ => none
  | fuel + 1, s =>
    match skipWs s with
    | d :: r0 =>
      if d = '"' then
        match parseStrAux r0 with
        | none => none
        | some (k, r1) =>
          match skipWs r1 with
          | e :: r2 =>
            if e = ':' then
              match parseVal fuel r2 with
              | none => none
              | some (v, r3) =>
                match skipWs r3 with
                | g :: r4 =>
                  if g = ',' then
                    match parseMembers fuel r4 with
                    | none => none
                    | some (ms, r5) => some (.cons k v ms, r5)
                  else if g = '\x7d' then some (.cons k v .nil, r4)
                  else none
                | [] => none
            else none
          | [] => none
      else none
    | [] => none

end

/-- Model of json.loads on the texts produced by this system. -/
def pyJsonLoads (s : List Char) : Option JVal :=
  match parseVal (s.length + 1) s with
  | some (v, rest) => if skipWs rest = [] then some v else none
  | none => none

/-! ### Round-trip: pyJsonLoads inverts pyJsonDumps -/

def headNotDigit : List Char → Bool
  | [] => true
  | c :: _ => !isDigitChar c

mutual

def fuelV : JVal → Nat
  | .jnull => 1
  | .jbool _ => 1
  | .jint _ => 1
  | .jstr _ => 1
  | .jarr xs => 1 + fuelI xs
  | .jobj ms => 1 + fuelM ms

def fuelI : JList → Nat
  | .nil => 0
  | .cons v tl => 1 + max (fuelV v) (fuelI tl)

def fuelM : JMembers → Nat
  | .nil => 0
  | .cons _ v tl => 1 + max (fuelV v) (fuelM tl)

end

/-! ## Sandboxed command runner

Model of kimi_agent/sandbox.py.  PATH lookup (shutil.which) and subprocess
execution are oracle parameters so that theorems can quantify over the
machine state; the per-command log file is modelled by the text the call
writes (logText).
-/

structure SandboxPolicy where
  allow_cli_tools : Bool := false
  allow_package_installs : Bool := false
  deriving DecidableEq

def PACKAGE_INSTALL_PREFIXES : List (List String) :=
  [["npm", "install"], ["python", "-m", "pip", "install"]]

def CLI_TOOL_PREFIXES : List (List String) := [["npm", "create"]]

inductive ExecOutcome where
  | completed (returncode : Int) (stdout stderr : String)
  | fileNotFound (msg : String)
  | osError (errno : Option Int) (msg : String)

structure CommandResult where
  command : List String
  return_code : Int
  stdout : String
  stderr : String
  skipped : Bool
  reason : Option String
  logText : String
  deriving DecidableEq

def joinSpace (cmd : List String) : String := String.intercalate " " cmd

namespace CommandRunner

/-- Model of CommandRunner._skip_reason.  The whichOk oracle models
shutil.which returning a path (true) or None (false). -/
def skip_reason (policy : SandboxPolicy) (whichOk : String → Bool) :
    List String → Option String
  | [] => some "empty-command"
  | e :: args =>
    if PACKAGE_INSTALL_PREFIXES.any (fun p => p.isPrefixOf (e :: args))
        && !policy.allow_package_installs then some "blocked-package-install"
    else if CLI_TOOL_PREFIXES.any (fun p => p.isPrefixOf (e :: args))
        && !policy.allow_cli_tools then some "blocked-cli"
    else if e = "python" || e = "py" then none
    else if !whichOk e then some "missing-executable"
    else none

/-- Model of CommandRunner.run.  The exec oracle models subprocess.run:
normal completion, FileNotFoundError, or another OSError (whose errno
attribute may be absent, modelled as none; the source computes
getattr(exc, "errno", 1) or 1). -/
def run (dryRun : Bool) (policy : SandboxPolicy) (whichOk : String → Bool)
    (exec : List String → ExecOutcome) (command : List String) : CommandResult :=
  match skip_reason policy whichOk command with
  | some r =>
    { command := command, return_code := 0, stdout := "", stderr := "", skipped := true,
      reason := some r,
      logText := "[skipped:" ++ r ++ "] command not executed: " ++ joinSpace command ++ "\n" }
  | none =>
    if dryRun then
      { command := command, return_code := 0, stdout := "", stderr := "", skipped := true,
        reason := some "dry-run",
        logText := "[dry-run] command skipped: " ++ joinSpace command ++ "\n" }
    else
      match exec command with
      | ExecOutcome.completed rc out err =>
        { command := command, return_code := rc, stdout := out, stderr := err,
          skipped := false, reason := none,
          logText := "$ " ++ joinSpace command ++ "\n\nSTDOUT:\n" ++ out
            ++ "\n\nSTDERR:\n" ++ err }
      | ExecOutcome.fileNotFound msg =>
        { command := command, return_code := 127, stdout := "", stderr := msg,
          skipped := true, reason := some "missing-executable",
          logText := "[missing-executable] command failed: " ++ joinSpace command
            ++ "\n" ++ msg ++ "\n" }
      | ExecOutcome.osError errno msg =>
        { command := command,
          return_code := match errno with
            | none => 1
            | some e => if e = 0 then 1 else e,
          stdout := "", stderr := msg, skipped := false, reason := some "os-error",
          logText := "[os-error] command failed: " ++ joinSpace command
            ++ "\n" ++ msg ++ "\n" }

end CommandRunner

/-! ## Filesystem model

A filesystem is an association list from paths (segment lists) to file
nodes; directories are implicit (a directory exists when some file lies
under it).  Zip archives are first-class nodes holding relative textual
entries; the workspaces this system snapshots contain text files.
-/

abbrev FsPath := List String

inductive FsNode where
  | text (content : List Char)
  | zip (entries : List (FsPath × List Char))
  deriving DecidableEq

abbrev FS := List (FsPath × FsNode)

def fsLookup : FS → FsPath → Option FsNode
  | [], _ => none
  | (q, n) :: rest, p => if q = p then some n else fsLookup rest p

def fsErase : FS → FsPath → FS
  | [], _ => []
  | (q, n) :: rest, p => if q = p then fsErase rest p else (q, n) :: fsErase rest p

def fsWrite (fs : FS) (p : FsPath) (n : FsNode) : FS := (p, n) :: fsErase fs p

def fsEraseDir : FS → FsPath → FS
  | [], _ => []
  | (q, n) :: rest, d => if d.isPrefixOf q then fsEraseDir rest d else (q, n) :: fsEraseDir rest d

def dirExistsB (fs : FS) (d : FsPath) : Bool := fs.any (fun e => d.isPrefixOf e.1)

/-- Files strictly below a directory, with paths relative to it (what
shutil.make_archive(root_dir=d) stores in the archive). -/
def filesUnder (fs : FS) (d : FsPath) : List (FsPath × List Char) :=
  fs.filterMap (fun e =>
    match e.2 with
    | FsNode.text c =>
      if d.isPrefixOf e.1 && decide (e.1 ≠ d) then some (e.1.drop d.length, c) else none
    | FsNode.zip _ => none)

/-- ZipFile.extractall: write every archive entry below dest. -/
def extractZip (entries : List (FsPath × List Char)) (dest : FsPath) (fs : FS) : FS :=
  entries.foldl (fun acc e => fsWrite acc (dest ++ e.1) (FsNode.text e.2)) fs

/-! ## Workspace manager (kimi_agent/workspace.py) -/

namespace WorkspaceManager

def snapshotPath (dataDir : FsPath) (runId : String) : FsPath :=
  dataDir ++ ["snapshots", runId ++ ".zip"]

def restoreDir (dataDir : FsPath) (runId : String) : FsPath :=
  dataDir ++ ["restores", runId]

/-- Model of WorkspaceManager.create_snapshot: None when the target does
not exist, else unlink any previous run_id.zip and archive the target. -/
def create_snapshot (dataDir : FsPath) (runId : String) (target : FsPath) (fs : FS) :
    FS × Option FsPath :=
  if dirExistsB fs target then
    let sp := snapshotPath dataDir runId
    let fs1 := fsErase fs sp
    (fsWrite fs1 sp (FsNode.zip (filesUnder fs1 target)), some sp)
  else (fs, none)

/-- Model of WorkspaceManager.stage_restore: extract the snapshot into the
per-run restores directory after clearing it; the live target directory is
not an input of the operation at all.  (A non-archive node at the snapshot
path would raise BadZipFile in Python; snapshots written by this manager
are always archives.) -/
def stage_restore (dataDir : FsPath) (runId : String) (spOpt : Option FsPath) (fs : FS) :
    FS × Option FsPath :=
  match spOpt with
  | none => (fs, none)
  | some sp =>
    match fsLookup fs sp with
    | none => (fs, none)
    | some node =>
      let rd := restoreDir dataDir runId
      let fs1 := fsEraseDir fs rd
      match node with
      | FsNode.zip entries => (extractZip entries rd fs1, some rd)
      | FsNode.text _ => (fs1, some rd)

end WorkspaceManager

/-! ## Snapshot manager (kimi_coding_agent/sandbox/snapshot.py) -/

namespace SnapshotManager

/-- Model of SnapshotManager.create_snapshot: make_archive into a
temporary directory then shutil.move onto base_dir/run_id.zip
(overwriting).  There is no missing-target check: with a missing target
directory os.walk yields no entries, so an empty archive is still
produced and a path is still returned. -/
def create_snapshot (baseDir : FsPath) (runId : String) (target : FsPath) (fs : FS) :
    FS × FsPath :=
  let sp := baseDir ++ [runId ++ ".zip"]
  (fsWrite fs sp (FsNode.zip (filesUnder fs target)), sp)

/-- Model of SnapshotManager.restore_snapshot: if the snapshot exists,
delete every entry inside the live target directory and extract the
archive into it. -/
def restore_snapshot (sp : FsPath) (target : FsPath) (fs : FS) : FS :=
  match fsLookup fs sp with
  | none => fs
  | some node =>
    let fs1 := fsEraseDir fs target
    match node with
    | FsNode.zip entries => extractZip entries target fs1
    | FsNode.text _ => fs1

def cleanup_snapshot (sp : FsPath) (fs : FS) : FS := fsErase fs sp

end SnapshotManager

/-! ## Orchestration pipeline (kimi_coding_agent/orchestrator/pipeline.py)

Agents are modelled as named functions from the shared state and the
filesystem to either a payload plus updated state and filesystem, or a
raised exception (Except.error).  Statuses are the RunStatus string
values.  The run store is modelled as the append-only list of records the
pipeline writes (timestamps are not modelled). -/

abbrev Payload := List (String × String)

abbrev SState := List (String × Payload)

structure AgentM where
  name : String
  run : SState → FS → Except String (Payload × SState × FS)

structure StepRecM where
  agent_name : String
  status : String
  payload : Payload
  deriving DecidableEq

inductive StoreEntry where
  | runStart (run_id status : String)
  | stepRec (run_id agent_name status : String) (payload : Payload)
  | artifactRec (run_id artifact_type : String) (path : FsPath) (description : String)
  | runFinal (run_id status : String)
  deriving DecidableEq

structure LoopOut where
  steps : List StepRecM
  status : String
  state : SState
  fs : FS

def payloadToJMembers : Payload → JMembers
  | [] => JMembers.nil
  | (k, v) :: tl => JMembers.cons k.toList (JVal.jstr v.toList) (payloadToJMembers tl)

def sstateToJMembers : SState → JMembers
  | [] => JMembers.nil
  | (k, p) :: tl => JMembers.cons k.toList (JVal.jobj (payloadToJMembers p)) (sstateToJMembers tl)

namespace RunPackager

/-- Model of RunPackager.package: dump the shared contexts as
agent_run_run_id.json inside the target, then zip the target into
dist/run_id.zip, unlinking a pre-existing archive. -/
def package (distDir : FsPath) (runId : String) (target : FsPath) (contexts : SState)
    (fs : FS) : FS × FsPath :=
  let metadataPath := target ++ ["agent_run_" ++ runId ++ ".json"]
  let fs1 := fsWrite fs metadataPath
    (FsNode.text (pyJsonDumps (JVal.jobj (sstateToJMembers contexts))))
  let archivePath := distDir ++ [runId ++ ".zip"]
  let fs2 := fsErase fs1 archivePath
  (fsWrite fs2 archivePath (FsNode.zip (filesUnder fs2 target)), archivePath)

end RunPackager

namespace AgentOrchestrator

/-- The per-agent loop of AgentOrchestrator.execute: each agent runs in
order; a returned payload records a succeeded step and execution
continues; a raised exception records a failed step with an error payload
and breaks the loop, making the overall status failed. -/
def runLoop : List AgentM → SState → FS → LoopOut
  | [], st, fs => ⟨[], "succeeded", st, fs⟩
  | a :: rest, st, fs =>
    match a.run st fs with
    | Except.ok (p, st1, fs1) =>
      let r := runLoop rest st1 fs1
      ⟨⟨a.name, "succeeded", p⟩ :: r.steps, r.status, r.state, r.fs⟩
    | Except.error e =>
      ⟨[⟨a.name, "failed", [("error", e)]⟩], "failed", st, fs⟩

structure ExecOut where
  status : String
  steps : List StepRecM
  contexts : SState
  store : List StoreEntry
  fs : FS

/-- Model of AgentOrchestrator.execute: record the run start, snapshot the
target, run the agent loop, then either restore the snapshot over the
live target (failed) or package and clean up the snapshot, and finalize
the run record.  (config.target_path.mkdir only creates directories, which
are implicit in the file-map model.) -/
def execute (agents : List AgentM) (snapDir distDir : FsPath) (runId : String)
    (target : FsPath) (st0 : SState) (fs0 : FS) : ExecOut :=
  let snap := SnapshotManager.create_snapshot snapDir runId target fs0
  let lp := runLoop agents st0 snap.1
  let stepEntries := lp.steps.map
    (fun s => StoreEntry.stepRec runId s.agent_name s.status s.payload)
  if lp.status = "failed" then
    let fs3 := SnapshotManager.restore_snapshot snap.2 target lp.fs
    ⟨"failed", lp.steps, lp.state,
      StoreEntry.runStart runId "running" :: stepEntries
        ++ [StoreEntry.runFinal runId "failed"], fs3⟩
  else
    let pk := RunPackager.package distDir runId target lp.state lp.fs
    let fs3 := SnapshotManager.cleanup_snapshot snap.2 pk.1
    ⟨lp.status, lp.steps, lp.state,
      StoreEntry.runStart runId "running" :: stepEntries
        ++ [StoreEntry.artifactRec runId "dist" pk.2 "Packaged run output",
            StoreEntry.runFinal runId lp.status], fs3⟩

end AgentOrchestrator

/-! ## Artifact packager (kimi_agent/packaging.py)

The bundle is assembled in a temporary directory and then zipped file by
file, so the archive is modelled directly as the final path-to-content
map of that directory.  Writes happen in source order: provenance.json,
manifest.json, README.txt, the per-agent artifact files, sbom.json, and
the copied command logs (the logs parameter stands for the *.log files
found under metadata["run.logs_dir"]).  Artifact file names are modelled
as single path segments. -/

structure ArtifactM where
  type : String
  payload : Option JVal
  deriving DecidableEq

structure AgentResultM where
  name : String
  status : String
  summary : String
  details : JVal
  artifacts : List (String × ArtifactM)
  deriving DecidableEq

mutual

/-- Python repr of a JSON-shaped value (string escaping inside repr is not
modelled; it is only used for non-JSON artifact bodies and f-strings). -/
def pyReprJVal : JVal → List Char
  | .jnull => ['N', 'o', 'n', 'e']
  | .jbool true => ['T', 'r', 'u', 'e']
  | .jbool false => ['F', 'a', 'l', 's', 'e']
  | .jint n => intToChars n
  | .jstr s => Char.ofNat 39 :: (s ++ [Char.ofNat 39])
  | .jarr xs => '[' :: (pyReprList xs ++ [']'])
  | .jobj ms => '\x7b' :: (pyReprMembers ms ++ ['\x7d'])

def pyReprList : JList → List Char
  | .nil => []
  | .cons v .nil => pyReprJVal v
  | .cons v (.cons w tl) => pyReprJVal v ++ ',' :: ' ' :: pyReprList (JList.cons w tl)

def pyReprMembers : JMembers → List Char
  | .nil => []
  | .cons k v .nil =>
    Char.ofNat 39 :: (k ++ Char.ofNat 39 :: ':' :: ' ' :: pyReprJVal v)
  | .cons k v (.cons k2 v2 tl) =>
    Char.ofNat 39 :: (k ++ Char.ofNat 39 :: ':' :: ' '
      :: (pyReprJVal v ++ ',' :: ' ' :: pyReprMembers (JMembers.cons k2 v2 tl)))

end

/-- Python str of a JSON-shaped value. -/
def pyStrOfJVal : JVal → List Char
  | .jstr s => s
  | v => pyReprJVal v

/-- Python str.endswith over the character lists of the two strings. -/
def strEndsWith (s suffix : String) : Bool := suffix.toList.isSuffixOf s.toList

/-- Body written for one artifact file: json.dumps for JSON-typed
artifacts (type ending in json or file name ending in .json), else
str(payload). -/
def artifactContent (filename : String) (a : ArtifactM) (p : JVal) : List Char :=
  if strEndsWith a.type "json" || strEndsWith filename ".json" then pyJsonDumps p
  else pyStrOfJVal p

def artifactToJVal (a : ArtifactM) : JVal :=
  JVal.jobj (JMembers.cons "type".toList (JVal.jstr a.type.toList)
    (JMembers.cons "payload".toList (a.payload.getD JVal.jnull) JMembers.nil))

def artifactsToJMembers : List (String × ArtifactM) → JMembers
  | [] => JMembers.nil
  | (f, a) :: tl => JMembers.cons f.toList (artifactToJVal a) (artifactsToJMembers tl)

def agentToJVal (r : AgentResultM) : JVal :=
  JVal.jobj (JMembers.cons "name".toList (JVal.jstr r.name.toList)
    (JMembers.cons "status".toList (JVal.jstr r.status.toList)
      (JMembers.cons "summary".toList (JVal.jstr r.summary.toList)
        (JMembers.cons "details".toList r.details
          (JMembers.cons "artifacts".toList
            (JVal.jobj (artifactsToJMembers r.artifacts)) JMembers.nil)))))

def resultsToJList : List AgentResultM → JList
  | [] => JList.nil
  | r :: tl => JList.cons (agentToJVal r) (resultsToJList tl)

def manifestJVal (runId targetPath : String) (metadata : JMembers)
    (results : List AgentResultM) : JVal :=
  JVal.jobj (JMembers.cons "run_id".toList (JVal.jstr runId.toList)
    (JMembers.cons "target_path".toList (JVal.jstr targetPath.toList)
      (JMembers.cons "metadata".toList (JVal.jobj metadata)
        (JMembers.cons "agents".toList (JVal.jarr (resultsToJList results)) JMembers.nil))))

def jMembersGet : JMembers → List Char → Option JVal
  | JMembers.nil, _ => none
  | JMembers.cons k v tl, key => if k = key then some v else jMembersGet tl key

def depEntries (srcName : List Char) : JMembers → List (List Char)
  | JMembers.nil => []
  | JMembers.cons n v tl =>
    (srcName ++ ':' :: (n ++ '=' :: '=' :: pyStrOfJVal v)) :: depEntries srcName tl

def depStringsOfSources : JMembers → List (List Char)
  | JMembers.nil => []
  | JMembers.cons srcName deps tl =>
    (match deps with
     | JVal.jobj pkgs => depEntries srcName pkgs
     | _ => []) ++ depStringsOfSources tl

def manifestDeps : JList → List (List Char)
  | JList.nil => []
  | JList.cons m tl =>
    (match m with
     | JVal.jobj ms =>
       let pkgs := match jMembersGet ms "packages".toList with
         | some (JVal.jobj pk) => pk
         | _ => JMembers.nil
       let src := match jMembersGet ms "source".toList with
         | some sv => pyStrOfJVal sv
         | none =>
           match jMembersGet ms "command".toList with
           | some cv => pyStrOfJVal cv
           | none => "unknown".toList
       depEntries src pkgs
     | _ => []) ++ manifestDeps tl

def lexLt : List Char → List Char → Bool
  | [], [] => false
  | [], _ :: _ => true
  | _ :: _, [] => false
  | a :: as, b :: bs => if a < b then true else if b < a then false else lexLt as bs

def insertSorted (x : List Char) : List (List Char) → List (List Char)
  | [] => [x]
  | y :: ys => if lexLt y x then y :: insertSorted x ys else x :: y :: ys

def sortChars (l : List (List Char)) : List (List Char) := l.foldr insertSorted []

/-- Model of _extract_dependencies: scan the coding agent's scaffold.json
payload for dependency maps and resolved manifests, then sorted(set(..)). -/
def extract_dependencies (results : List AgentResultM) : List (List Char) :=
  sortChars ((results.flatMap (fun r =>
    if r.name = "coding" then
      let sc : JMembers := match r.artifacts.lookup "scaffold.json" with
        | some a =>
          match a.payload with
          | some (JVal.jobj ms) => ms
          | _ => JMembers.nil
        | none => JMembers.nil
      (match jMembersGet sc "dependencies".toList with
       | some (JVal.jobj srcs) => depStringsOfSources srcs
       | _ => []) ++
      (match jMembersGet sc "resolved_manifests".toList with
       | some (JVal.jarr l) => manifestDeps l
       | _ => [])
    else [])).eraseDups)

def toJListStr : List (List Char) → JList
  | [] => JList.nil
  | s :: tl => JList.cons (JVal.jstr s) (toJListStr tl)

def sbomJVal (runId generatedAt : String) (metadata : JMembers)
    (results : List AgentResultM) : JVal :=
  JVal.jobj (JMembers.cons "run_id".toList (JVal.jstr runId.toList)
    (JMembers.cons "generated_at".toList (JVal.jstr generatedAt.toList)
      (JMembers.cons "project_type".toList
        ((jMembersGet metadata "coding.project_type".toList).getD JVal.jnull)
        (JMembers.cons "dependencies".toList
          (JVal.jarr (toJListStr (extract_dependencies results))) JMembers.nil))))

def readmeText : List Char :=
  ("Sprint 5 bundle containing manifest, agent artifacts, SBOM, dependency manifests, "
    ++ "and execution logs.").toList

abbrev Archive := List (FsPath × List Char)

def arcErase : Archive → FsPath → Archive
  | [], _ => []
  | (q, c) :: rest, p => if q = p then arcErase rest p else (q, c) :: arcErase rest p

def arcWrite (m : Archive) (p : FsPath) (c : List Char) : Archive := (p, c) :: arcErase m p

def arcLookup : Archive → FsPath → Option (List Char)
  | [], _ => none
  | (q, c) :: rest, p => if q = p then some c else arcLookup rest p

def applyWrites (base : Archive) (ws : List (FsPath × List Char)) : Archive :=
  ws.foldl (fun acc e => arcWrite acc e.1 e.2) base

namespace ArtifactPackager

def artifactWrites (results : List AgentResultM) : List (FsPath × List Char) :=
  results.flatMap (fun r => r.artifacts.filterMap (fun kv =>
    match kv.2.payload with
    | none => none
    | some p => some ((["artifacts", r.name, kv.1] : FsPath), artifactContent kv.1 kv.2 p)))

/-- Every file written into the bundle directory, in the order the source
writes them. -/
def packageWrites (runId targetPath : String) (metadata : JMembers)
    (results : List AgentResultM) (logs : List (String × List Char))
    (generatedAt : String) : List (FsPath × List Char) :=
  [((["provenance.json"] : FsPath), pyJsonDumps (JVal.jobj metadata)),
   ((["manifest.json"] : FsPath), pyJsonDumps (manifestJVal runId targetPath metadata results)),
   ((["README.txt"] : FsPath), readmeText)]
  ++ artifactWrites results
  ++ [((["sbom.json"] : FsPath), pyJsonDumps (sbomJVal runId generatedAt metadata results))]
  ++ logs.map (fun lg => ((["logs", lg.1] : FsPath), lg.2))

/-- Model of ArtifactPackager.package restricted to the produced archive:
the zip holds exactly the files of the staged bundle directory. -/
def package (runId targetPath : String) (metadata : JMembers)
    (results : List AgentResultM) (logs : List (String × List Char))
    (generatedAt : String) : Archive :=
  applyWrites [] (packageWrites runId targetPath metadata results logs generatedAt)

structure PackagingResultM where
  status : String
  output_path : FsPath
  files : List FsPath
  deriving DecidableEq

def packageResult (distDir : FsPath) (runId targetPath : String) (metadata : JMembers)
    (results : List AgentResultM) (logs : List (String × List Char))
    (generatedAt : String) : PackagingResultM :=
  { status := "succeeded",
    output_path := distDir ++ [runId ++ ".zip"],
    files := (packageWrites runId targetPath metadata results logs generatedAt).map Prod.fst }

end ArtifactPackager

/-! ## Step rows of the SQLite run store (kimi_agent/persistence/store.py)

A step row carries the columns the step operations touch; the reachable
rows are those produced by record_step_start followed by
record_step_complete (called by the orchestrator with a terminal status)
or record_step_failed. -/

structure StepRowM where
  status : String
  output_payload : Option String
  error : Option String
  deriving DecidableEq

namespace SQLiteRunStore

/-- Row inserted by record_step_start: status running, no output. -/
def record_step_start_row : StepRowM :=
  { status := "running", output_payload := none, error := none }

/-- Row update of record_step_complete: sets completed_at, the given
status, and the output payload. -/
def record_step_complete_row (r : StepRowM) (output status : String) : StepRowM :=
  { r with status := status, output_payload := some output }

/-- Row update of record_step_failed: sets completed_at, status failed and
the error text; the output_payload column is not touched. -/
def record_step_failed_row (r : StepRowM) (e : String) : StepRowM :=
  { r with status := "failed", error := some e }

/-- Step rows reachable through the store API over a step's lifetime; the
orchestrator passes only terminal statuses to record_step_complete. -/
inductive StepReach : StepRowM → Prop
  | start : StepReach record_step_start_row
  | complete (r : StepRowM) (output status : String) : StepReach r →
      status = "succeeded" ∨ status = "failed" →
      StepReach (record_step_complete_row r output status)
  | failed (r : StepRowM) (e : String) : StepReach r →
      StepReach (record_step_failed_row r e)

end SQLiteRunStore

/-! ## Run controller (kimi_agent/orchestrator.py RunController) -/

structure CtrlAgentResult where
  name : String
  status : String
  summary : String
  deriving DecidableEq

structure CtrlAgent where
  name : String
  run : List CtrlAgentResult → Except String CtrlAgentResult

structure CtrlPackaging where
  status : String
  output_path : FsPath
  deriving DecidableEq

structure CtrlOut where
  status : String
  agent_results : List CtrlAgentResult
  packaging : Option CtrlPackaging
  events : List String
  deriving DecidableEq

namespace RunControllerSpec

/-- Modelled from the spec: the RunController class of
kimi_agent/orchestrator.py is imported by kimi_agent/cli.py and exercised
by tests/test_run_controller.py but is absent from the sources, so its
agent loop is modelled from spec section 4.5: agents run in fixed order
over the accumulated results; a raised exception records a failed result,
makes the run status failed and stops the loop; a returned result with a
non-succeeded status is recorded and the run status degrades to
partial-success while the loop continues. -/
def ctrlLoop : List CtrlAgent → List CtrlAgentResult → String →
    List CtrlAgentResult × String
  | [], acc, status => (acc, status)
  | a :: rest, acc, status =>
    match a.run acc with
    | Except.error e =>
      (acc ++ [{ name := a.name, status := "failed", summary := e }], "failed")
    | Except.ok r =>
      ctrlLoop rest (acc ++ [r]) (if r.status ≠ "succeeded" then "partial-success" else status)

/-- Modelled from the spec: RunController.execute after the agent loop
(spec sections 4.5 and 8): a failed run stages a restore and emits a
rollback_staged event with no packaging; a dry run skips packaging
entirely (packaging None, packaging_skipped event) without downgrading
the status; otherwise the packager runs and a packaging result whose
status is not succeeded downgrades the run to partial-success. -/
def execute (dryRun : Bool) (agents : List CtrlAgent) (pkg : CtrlPackaging) : CtrlOut :=
  let lp := ctrlLoop agents [] "succeeded"
  if lp.2 = "failed" then
    { status := "failed", agent_results := lp.1, packaging := none,
      events := ["run_started", "rollback_staged", "run_completed"] }
  else if dryRun then
    { status := lp.2, agent_results := lp.1, packaging := none,
      events := ["run_started", "packaging_skipped", "run_completed"] }
  else
    { status := if pkg.status ≠ "succeeded" then "partial-success" else lp.2,
      agent_results := lp.1, packaging := some pkg,
      events := ["run_started", "packaging_completed", "run_completed"] }

end RunControllerSpec

/-! ## Concrete runs used by witnesses and counterexamples -/

def c5Agents : List CtrlAgent :=
  [{ name := "requirements", run := fun _ => Except.ok
      { name := "requirements", status := "succeeded", summary := "ok" } },
   { name := "coding", run := fun _ => Except.ok
      { name := "coding", status := "succeeded", summary := "ok" } },
   { name := "testing", run := fun _ => Except.ok
      { name := "testing", status := "succeeded", summary := "ok" } },
   { name := "documentation", run := fun _ => Except.ok
      { name := "documentation", status := "succeeded", summary := "ok" } }]

def cxWriterAgent : AgentM :=
  { name := "coding",
    run := fun st fs => Except.ok ([("note", "wrote scaffold")], st,
      fsWrite fs ["ws", "app.py"] (FsNode.text "print(2)".toList)) }

def cxBombAgent : AgentM :=
  { name := "testing", run := fun _ _ => Except.error "boom" }

def cxFs0 : FS := [(["ws", "app.py"], FsNode.text "print(1)".toList)]

def c4FailResultAgent : AgentM :=
  { name := "testing",
    run := fun st fs =>
      Except.ok ([("status", "failed"), ("summary", "tests failed")], st, fs) }

def c4NextAgent : AgentM :=
  { name := "documentation",
    run := fun st fs => Except.ok ([("status", "succeeded")], st, fs) }

def isArtifactEntry : StoreEntry → Bool
  | StoreEntry.artifactRec _ _ _ _ => true
  | _ => false

def c8SamplePayload : JVal :=
  JVal.jobj (JMembers.cons ['a']
    (JVal.jarr (JList.cons (JVal.jint 1) (JList.cons (JVal.jint (-2)) JList.nil)))
    (JMembers.cons ['b'] (JVal.jstr ['h', 'i']) JMembers.nil))

def c8SampleArtifact : ArtifactM := { type := "application/json", payload := some c8SamplePayload }

def c8SampleResult : AgentResultM :=
  { name := "coding", status := "succeeded", summary := "plan", details := JVal.jnull,
    artifacts := [("plan.json", c8SampleArtifact)] }

/-! ### Round-trip theorems -/

theorem digitChar_isDigit (m : Nat) (h : m < 10) : isDigitChar (digitChar m) = true := by
  interval_cases m <;> decide

theorem digitVal_digitChar (m : Nat) (h : m < 10) : digitVal (digitChar m) = m := by
  interval_cases m <;> decide

theorem natToChars_head (n : Nat) :
    ∃ c t, natToChars n = c :: t ∧ isDigitChar c = true := by
  induction n using Nat.strong_induction_on with
  | _ n ih =>
    rw [natToChars]
    by_cases h : n < 10
    · exact ⟨digitChar n, [], by simp [h], digitChar_isDigit n h⟩
    · simp only [h, dite_false]
      obtain ⟨c, t, hc, hd⟩ := ih (n / 10)
        (Nat.div_lt_self (Nat.lt_of_lt_of_le (by decide) (Nat.le_of_not_lt h)) (by decide))
      exact ⟨c, t ++ [digitChar (n % 10)], by simp [hc], hd⟩

theorem parseDigitsAux_stop (acc : Nat) (rest : List Char) (h : headNotDigit rest = true) :
    parseDigitsAux acc rest = (acc, rest) := by
  cases rest with
  | nil => rfl
  | cons c t =>
    simp only [headNotDigit, Bool.not_eq_true'] at h
    simp [parseDigitsAux, h]

theorem parseDigitsAux_natToChars (m : Nat) : ∀ acc rest,
    parseDigitsAux acc (natToChars m ++ rest)
      = parseDigitsAux (acc * 10 ^ (natToChars m).length + m) rest := by
  induction m using Nat.strong_induction_on with
  | _ m ih =>
    intro acc rest
    rw [natToChars]
    by_cases h : m < 10
    · simp only [h, dite_true, List.singleton_append, List.length_singleton]
      simp [parseDigitsAux, digitChar_isDigit m h, digitVal_digitChar m h]
    · have hm : m / 10 < m :=
        Nat.div_lt_self (Nat.lt_of_lt_of_le (by decide) (Nat.le_of_not_lt h)) (by decide)
      simp only [h, dite_false, List.append_assoc, List.singleton_append, List.length_append,
        List.length_singleton]
      rw [ih (m / 10) hm acc (digitChar (m % 10) :: rest)]
      have h10 : m % 10 < 10 := Nat.mod_lt _ (by decide)
      simp only [parseDigitsAux, digitChar_isDigit _ h10, digitVal_digitChar _ h10, if_true]
      congr 1
      have := Nat.div_add_mod m 10
      ring_nf
      omega

theorem parseDigitsAux_run (m : Nat) (rest : List Char) (h : headNotDigit rest = true) :
    parseDigitsAux 0 (natToChars m ++ rest) = (m, rest) := by
  rw [parseDigitsAux_natToChars, Nat.zero_mul, Nat.zero_add, parseDigitsAux_stop _ _ h]

theorem isWs_nSpaces (n : Nat) : ∀ c ∈ nSpaces n, isWsChar c = true := by
  intro c hc
  rw [nSpaces, List.mem_replicate] at hc
  rw [hc.2]; decide

theorem skipWs_append (w s : List Char) (hw : ∀ c ∈ w, isWsChar c = true) :
    skipWs (w ++ s) = skipWs s := by
  induction w with
  | nil => rfl
  | cons c t ih =>
    simp only [List.cons_append, skipWs, hw c (by simp), if_true]
    exact ih (fun x hx => hw x (by simp [hx]))

theorem skipWs_cons_false (c : Char) (s : List Char) (h : isWsChar c = false) :
    skipWs (c :: s) = c :: s := by
  simp [skipWs, h]

theorem parseVal_ws (fuel : Nat) (w s : List Char) (hw : ∀ c ∈ w, isWsChar c = true) :
    parseVal fuel (w ++ s) = parseVal fuel s := by
  cases fuel with
  | zero => rfl
  | succ f => rw [parseVal, parseVal, skipWs_append w s hw]

theorem isDigitChar_ne (c : Char) (h : isDigitChar c = true) (x : Char)
    (hx : isDigitChar x = false) : c ≠ x := by
  intro he; rw [he, hx] at h; cases h

theorem isDigitChar_not_ws (c : Char) (h : isDigitChar c = true) : isWsChar c = false := by
  cases hw : isWsChar c with
  | false => rfl
  | true =>
    simp only [isWsChar, Bool.or_eq_true, decide_eq_true_eq] at hw
    rcases hw with ((h1 | h1) | h1) | h1 <;> subst h1 <;> exact absurd h (by decide)

theorem hexDigitChar_isHex (n : Nat) (h : n < 16) : isHexChar (hexDigitChar n) = true := by
  interval_cases n <;> decide

theorem hexVal_hexDigitChar (n : Nat) (h : n < 16) : hexVal (hexDigitChar n) = n := by
  interval_cases n <;> decide

theorem parseStrAux_cons_plain (c : Char) (l : List Char)
    (h1 : c ≠ '"') (h2 : c ≠ '\\') (h3 : ¬ c.toNat < 32) :
    parseStrAux (c :: l) = (parseStrAux l).map (consFst c) := by
  rw [parseStrAux.eq_def]
  simp [h1, h2, h3]

theorem parseStrAux_escape (s : List Char) : ∀ rest,
    parseStrAux (escapeStr s ++ '"' :: rest) = some (s, rest) := by
  induction s with
  | nil =>
    intro rest
    have h0 : escapeStr ([] : List Char) = [] := rfl
    rw [h0, List.nil_append, parseStrAux.eq_def]
    simp
  | cons c s ih =>
    intro rest
    have hsplit : escapeStr (c :: s) = escapeChar c ++ escapeStr s := by
      simp [escapeStr]
    rw [hsplit, List.append_assoc]
    by_cases hq : c = '"'
    · subst hq
      have he : escapeChar '"' = ['\\', '"'] := by decide
      rw [he, List.cons_append, List.singleton_append, parseStrAux.eq_def]
      simp [ih rest, consFst]
    · by_cases hb : c = '\\'
      · subst hb
        have he : escapeChar '\\' = ['\\', '\\'] := by decide
        rw [he, List.cons_append, List.singleton_append, parseStrAux.eq_def]
        simp [ih rest, consFst]
      · by_cases h8 : c = Char.ofNat 8
        · subst h8
          have he : escapeChar (Char.ofNat 8) = ['\\', 'b'] := by decide
          rw [he, List.cons_append, List.singleton_append, parseStrAux.eq_def]
          simp [ih rest, consFst]
        · by_cases h12 : c = Char.ofNat 12
          · subst h12
            have he : escapeChar (Char.ofNat 12) = ['\\', 'f'] := by decide
            rw [he, List.cons_append, List.singleton_append, parseStrAux.eq_def]
            simp [ih rest, consFst]
          · by_cases hn : c = '\n'
            · subst hn
              have he : escapeChar '\n' = ['\\', 'n'] := by decide
              rw [he, List.cons_append, List.singleton_append, parseStrAux.eq_def]
              simp [ih rest, consFst]
            · by_cases hr : c = '\r'
              · subst hr
                have he : escapeChar '\r' = ['\\', 'r'] := by decide
                rw [he, List.cons_append, List.singleton_append, parseStrAux.eq_def]
                simp [ih rest, consFst]
              · by_cases ht : c = '\t'
                · subst ht
                  have he : escapeChar '\t' = ['\\', 't'] := by decide
                  rw [he, List.cons_append, List.singleton_append, parseStrAux.eq_def]
                  simp [ih rest, consFst]
                · by_cases hc : c.toNat < 32
                  · have hdiv : c.toNat / 16 < 16 := by omega
                    have hmod : c.toNat % 16 < 16 := by omega
                    have e1 : hexVal (hexDigitChar (c.toNat / 16)) = c.toNat / 16 :=
                      hexVal_hexDigitChar _ hdiv
                    have e2 : hexVal (hexDigitChar (c.toNat % 16)) = c.toNat % 16 :=
                      hexVal_hexDigitChar _ hmod
                    have hesc : escapeChar c =
                        ['\\', 'u', '0', '0', hexDigitChar (c.toNat / 16),
                          hexDigitChar (c.toNat % 16)] := by
                      simp [escapeChar, hq, hb, h8, h12, hn, hr, ht, hc]
                    have h0 : hexVal '0' = 0 := by decide
                    have harg : 0 * 4096 + 0 * 256 +
                        c.toNat / 16 * 16 + c.toNat % 16 = c.toNat := by omega
                    rw [hesc]
                    simp only [List.cons_append, List.nil_append]
                    rw [parseStrAux.eq_def]
                    simp [hexDigitChar_isHex _ hdiv, hexDigitChar_isHex _ hmod,
                      ih rest, e1, e2, h0, consFst, harg, Char.ofNat_toNat]
                    refine ⟨by decide, ?_⟩
                    have hsum : c.toNat / 16 * 16 + c.toNat % 16 = c.toNat := by omega
                    rw [hsum, Char.ofNat_toNat]
                  · have hesc : escapeChar c = [c] := by
                      simp [escapeChar, hq, hb, h8, h12, hn, hr, ht, hc]
                    rw [hesc, List.singleton_append,
                      parseStrAux_cons_plain c _ hq hb hc, ih rest]
                    rfl

theorem fuelV_pos (v : JVal) : 1 ≤ fuelV v := by
  cases v <;> simp [fuelV]

theorem renderVal_head (ind : Nat) (v : JVal) :
    ∃ c t, renderVal ind v = c :: t ∧ isWsChar c = false ∧ c ≠ ']' ∧ c ≠ '\x7d' := by
  cases v with
  | jnull => exact ⟨'n', _, rfl, by decide, by decide, by decide⟩
  | jbool b =>
    cases b
    case false => exact ⟨'f', _, rfl, by decide, by decide, by decide⟩
    case true => exact ⟨'t', _, rfl, by decide, by decide, by decide⟩
  | jint n =>
    simp only [renderVal]
    by_cases hneg : n < 0
    · refine ⟨'-', natToChars n.natAbs, ?_, by decide, by decide, by decide⟩
      rw [intToChars, if_pos hneg]
    · obtain ⟨c, t, hct, hd⟩ := natToChars_head n.toNat
      refine ⟨c, t, ?_, isDigitChar_not_ws c hd, isDigitChar_ne c hd _ (by decide),
        isDigitChar_ne c hd _ (by decide)⟩
      rw [intToChars, if_neg hneg, hct]
  | jstr s => exact ⟨'"', _, rfl, by decide, by decide, by decide⟩
  | jarr xs => cases xs with
    | nil => exact ⟨'[', _, rfl, by decide, by decide, by decide⟩
    | cons v tl => exact ⟨'[', _, rfl, by decide, by decide, by decide⟩
  | jobj ms => cases ms with
    | nil => exact ⟨'\x7b', _, rfl, by decide, by decide, by decide⟩
    | cons k v tl => exact ⟨'\x7b', _, rfl, by decide, by decide, by decide⟩

theorem renderItems_decomp (ind : Nat) (v0 : JVal) (tl : JList) :
    ∃ T, renderItems ind (.cons v0 tl) = nSpaces ind ++ (renderVal ind v0 ++ T)
      ∧ headNotDigit T = true := by
  cases tl with
  | nil => exact ⟨[], by simp [renderItems], rfl⟩
  | cons w tl2 =>
    exact ⟨',' :: '\n' :: renderItems ind (.cons w tl2), by simp [renderItems], rfl⟩

theorem renderMembers_decomp (ind : Nat) (k0 : List Char) (v0 : JVal) (tl : JMembers) :
    ∃ T, renderMembers ind (.cons k0 v0 tl)
      = nSpaces ind ++ ('"' :: (escapeStr k0 ++ ('"' :: ':' :: ' ' :: (renderVal ind v0 ++ T))))
      ∧ headNotDigit T = true := by
  cases tl with
  | nil => exact ⟨[], by simp [renderMembers], rfl⟩
  | cons k1 v1 tl1 =>
    exact ⟨',' :: '\n' :: renderMembers ind (.cons k1 v1 tl1), by simp [renderMembers], rfl⟩

theorem skipWs_nl_sp (n : Nat) (s : List Char) :
    skipWs ('\n' :: (nSpaces n ++ s)) = skipWs s := by
  have h : ('\n' :: (nSpaces n ++ s)) = (('\n' :: nSpaces n) ++ s) := by simp
  rw [h, skipWs_append]
  intro c hc
  rcases List.mem_cons.mp hc with h1 | h1
  · rw [h1]; decide
  · exact isWs_nSpaces n c h1

theorem parseVal_ws1 (fuel : Nat) (c : Char) (s : List Char) (h : isWsChar c = true) :
    parseVal fuel (c :: s) = parseVal fuel s := by
  have := parseVal_ws fuel [c] s (by intro x hx; simp at hx; rw [hx]; exact h)
  rwa [List.singleton_append] at this

theorem parseVal_lbracket (fuel : Nat) (X : List Char) :
    parseVal (fuel + 1) ('[' :: X)
      = match skipWs X with
        | d :: r2 =>
          if d = ']' then some (JVal.jarr JList.nil, r2)
          else (parseItems fuel X).map (fun p => (JVal.jarr p.1, p.2))
        | [] => (parseItems fuel X).map (fun p => (JVal.jarr p.1, p.2)) := by
  rw [parseVal, skipWs_cons_false _ _ (by decide)]
  simp

theorem parseVal_lbrace (fuel : Nat) (X : List Char) :
    parseVal (fuel + 1) ('\x7b' :: X)
      = match skipWs X with
        | d :: r2 =>
          if d = '\x7d' then some (JVal.jobj JMembers.nil, r2)
          else (parseMembers fuel X).map (fun p => (JVal.jobj p.1, p.2))
        | [] => (parseMembers fuel X).map (fun p => (JVal.jobj p.1, p.2)) := by
  rw [parseVal, skipWs_cons_false _ _ (by decide)]
  simp

theorem parse_render (fuel : Nat) :
    (∀ v ind rest, fuelV v ≤ fuel → headNotDigit rest = true →
      parseVal fuel (renderVal ind v ++ rest) = some (v, rest))
    ∧ (∀ v0 tl ind j w rest, (∀ c ∈ w, isWsChar c = true) →
        fuelI (JList.cons v0 tl) ≤ fuel →
        parseItems fuel
          (w ++ (renderItems ind (JList.cons v0 tl) ++ '\n' :: (nSpaces j ++ ']' :: rest)))
          = some (JList.cons v0 tl, rest))
    ∧ (∀ k0 v0 tl ind j w rest, (∀ c ∈ w, isWsChar c = true) →
        fuelM (JMembers.cons k0 v0 tl) ≤ fuel →
        parseMembers fuel
          (w ++ (renderMembers ind (JMembers.cons k0 v0 tl) ++ '\n' :: (nSpaces j ++ '\x7d' :: rest)))
          = some (JMembers.cons k0 v0 tl, rest)) := by
  induction fuel with
  | zero =>
    refine ⟨?_, ?_, ?_⟩
    · intro v ind rest hf _
      exact absurd (le_trans (fuelV_pos v) hf) (by decide)
    · intro v0 tl ind j w rest _ hf
      simp only [fuelI] at hf; omega
    · intro k0 v0 tl ind j w rest _ hf
      simp only [fuelM] at hf; omega
  | succ fuel ih =>
    obtain ⟨ihV, ihI, ihM⟩ := ih
    refine ⟨?_, ?_, ?_⟩
    · -- value lemma
      intro v ind rest hf hrd
      cases v with
      | jnull => rw [parseVal]; rfl
      | jbool b => cases b <;> (rw [parseVal]; rfl)
      | jstr s =>
        rw [parseVal]
        simp only [renderVal, List.cons_append, List.append_assoc, List.singleton_append]
        rw [skipWs_cons_false _ _ (by decide)]
        simp [parseStrAux_escape s rest]
      | jint n =>
        simp only [renderVal]
        rw [intToChars]
        by_cases hneg : n < 0
        · rw [if_pos hneg]
          obtain ⟨d, t, hd, hdig⟩ := natToChars_head n.natAbs
          have hback : natToChars n.natAbs ++ rest = d :: (t ++ rest) := by
            rw [hd, List.cons_append]
          rw [parseVal, List.cons_append, skipWs_cons_false _ _ (by decide)]
          have hval : -((n.natAbs : Nat) : Int) = n := by omega
          simp only [reduceIte]
          rw [hback]
          simp only [hdig, reduceIte]
          rw [← hback, parseDigitsAux_run _ _ hrd]
          simp only [hval]
          rfl
        · rw [if_neg hneg]
          obtain ⟨d, t, hd, hdig⟩ := natToChars_head n.toNat
          have hback : natToChars n.toNat ++ rest = d :: (t ++ rest) := by
            rw [hd, List.cons_append]
          have h1 := isDigitChar_ne d hdig 'n' (by decide)
          have h2 := isDigitChar_ne d hdig 't' (by decide)
          have h3 := isDigitChar_ne d hdig 'f' (by decide)
          have h4 := isDigitChar_ne d hdig '"' (by decide)
          have h5 := isDigitChar_ne d hdig '[' (by decide)
          have h6 := isDigitChar_ne d hdig '\x7b' (by decide)
          have h7 := isDigitChar_ne d hdig '-' (by decide)
          rw [parseVal, hback, skipWs_cons_false _ _ (isDigitChar_not_ws d hdig)]
          have hval : ((n.toNat : Nat) : Int) = n := by omega
          simp only [h1, h2, h3, h4, h5, h6, h7, hdig, if_false, if_true, reduceIte]
          rw [← hback, parseDigitsAux_run _ _ hrd]
          simp only [hval]
      | jarr xs =>
        cases xs with
        | nil => rw [parseVal]; rfl
        | cons v0 tl =>
          have hfi : fuelI (JList.cons v0 tl) ≤ fuel := by
            simp only [fuelV] at hf; omega
          simp only [renderVal, List.cons_append, List.append_assoc, List.singleton_append,
            List.nil_append]
          rw [parseVal_lbracket]
          obtain ⟨T, hT, hTd⟩ := renderItems_decomp (ind + 2) v0 tl
          obtain ⟨c0, t0, hc0, hws0, hbr0, hbc0⟩ := renderVal_head (ind + 2) v0
          have hsk : skipWs ('\n' :: (renderItems (ind + 2) (JList.cons v0 tl)
                ++ '\n' :: (nSpaces ind ++ (']' :: rest))))
              = c0 :: (t0 ++ (T ++ '\n' :: (nSpaces ind ++ (']' :: rest)))) := by
            rw [hT, hc0]
            have hre : ('\n' :: ((nSpaces (ind + 2) ++ ((c0 :: t0) ++ T))
                  ++ '\n' :: (nSpaces ind ++ (']' :: rest))))
                = ('\n' :: (nSpaces (ind + 2)
                  ++ (c0 :: (t0 ++ (T ++ '\n' :: (nSpaces ind ++ (']' :: rest))))))) := by
              simp [List.append_assoc]
            rw [hre, skipWs_nl_sp, skipWs_cons_false _ _ hws0]
          rw [hsk]
          have hitems := ihI v0 tl (ind + 2) ind ['\n'] rest
            (by intro c hc; simp at hc; rw [hc]; decide) hfi
          rw [List.singleton_append] at hitems
          simp [hitems, hbr0]
      | jobj ms =>
        cases ms with
        | nil => rw [parseVal]; rfl
        | cons k0 v0 tl =>
          have hfm : fuelM (JMembers.cons k0 v0 tl) ≤ fuel := by
            simp only [fuelV] at hf; omega
          simp only [renderVal, List.cons_append, List.append_assoc, List.singleton_append,
            List.nil_append]
          rw [parseVal_lbrace]
          obtain ⟨T, hT, hTd⟩ := renderMembers_decomp (ind + 2) k0 v0 tl
          have hsk : skipWs ('\n' :: (renderMembers (ind + 2) (JMembers.cons k0 v0 tl)
                ++ '\n' :: (nSpaces ind ++ ('\x7d' :: rest))))
              = '"' :: ((escapeStr k0 ++ ('"' :: ':' :: ' ' :: (renderVal (ind + 2) v0 ++ T)))
                  ++ '\n' :: (nSpaces ind ++ ('\x7d' :: rest))) := by
            rw [hT]
            have hre : ('\n' :: ((nSpaces (ind + 2)
                  ++ ('"' :: (escapeStr k0 ++ ('"' :: ':' :: ' ' :: (renderVal (ind + 2) v0 ++ T)))))
                  ++ '\n' :: (nSpaces ind ++ ('\x7d' :: rest))))
                = ('\n' :: (nSpaces (ind + 2)
                  ++ ('"' :: ((escapeStr k0 ++ ('"' :: ':' :: ' ' :: (renderVal (ind + 2) v0 ++ T)))
                      ++ '\n' :: (nSpaces ind ++ ('\x7d' :: rest)))))) := by
              simp [List.append_assoc]
            rw [hre, skipWs_nl_sp, skipWs_cons_false _ _ (by decide)]
          rw [hsk]
          have hmem := ihM k0 v0 tl (ind + 2) ind ['\n'] rest
            (by intro c hc; simp at hc; rw [hc]; decide) hfm
          rw [List.singleton_append] at hmem
          simp [hmem]
    · -- items lemma
      intro v0 tl ind j w rest hw hfl
      have hv0 : fuelV v0 ≤ fuel := by simp only [fuelI] at hfl; omega
      cases tl with
      | nil =>
        rw [parseItems]
        simp only [renderItems, List.append_assoc]
        rw [parseVal_ws fuel w _ hw, parseVal_ws fuel (nSpaces ind) _ (isWs_nSpaces ind)]
        rw [ihV v0 ind _ hv0 (by rfl)]
        simp only []
        rw [skipWs_nl_sp, skipWs_cons_false _ _ (by decide)]
        simp
      | cons v1 tl1 =>
        have hfl1 : fuelI (JList.cons v1 tl1) ≤ fuel := by
          simp only [fuelI] at hfl ⊢; omega
        rw [parseItems]
        simp only [renderItems, List.append_assoc, List.cons_append]
        rw [parseVal_ws fuel w _ hw, parseVal_ws fuel (nSpaces ind) _ (isWs_nSpaces ind)]
        rw [ihV v0 ind _ hv0 (by rfl)]
        simp only []
        rw [skipWs_cons_false _ _ (by decide)]
        have hitems := ihI v1 tl1 ind j ['\n'] rest
          (by intro c hc; simp at hc; rw [hc]; decide) hfl1
        rw [List.singleton_append] at hitems
        simp [hitems]
    · -- members lemma
      intro k0 v0 tl ind j w rest hw hfl
      have hv0 : fuelV v0 ≤ fuel := by simp only [fuelM] at hfl; omega
      cases tl with
      | nil =>
        rw [parseMembers]
        simp only [renderMembers, List.append_assoc, List.cons_append]
        rw [show skipWs (w ++ (nSpaces ind
              ++ '"' :: (escapeStr k0 ++ '"' :: ':' :: ' '
                  :: (renderVal ind v0 ++ '\n' :: (nSpaces j ++ '\x7d' :: rest)))))
            = '"' :: (escapeStr k0 ++ '"' :: ':' :: ' '
                  :: (renderVal ind v0 ++ '\n' :: (nSpaces j ++ '\x7d' :: rest))) from by
          rw [skipWs_append _ _ hw, skipWs_append _ _ (isWs_nSpaces ind),
            skipWs_cons_false _ _ (by decide)]]
        simp only [if_pos (rfl : ('"' : Char) = '"')]
        rw [parseStrAux_escape k0
          (':' :: ' ' :: (renderVal ind v0 ++ '\n' :: (nSpaces j ++ '\x7d' :: rest)))]
        simp only []
        rw [skipWs_cons_false _ _ (by decide)]
        simp only [if_pos (rfl : (':' : Char) = ':')]
        rw [parseVal_ws1 fuel ' ' _ (by decide)]
        rw [ihV v0 ind _ hv0 (by rfl)]
        simp only []
        rw [skipWs_nl_sp, skipWs_cons_false _ _ (by decide)]
        simp
      | cons k1 v1 tl1 =>
        have hfl1 : fuelM (JMembers.cons k1 v1 tl1) ≤ fuel := by
          simp only [fuelM] at hfl ⊢; omega
        rw [parseMembers]
        simp only [renderMembers, List.append_assoc, List.cons_append]
        rw [show skipWs (w ++ (nSpaces ind
              ++ '"' :: (escapeStr k0 ++ '"' :: ':' :: ' '
                  :: (renderVal ind v0 ++ ',' :: '\n'
                    :: (renderMembers ind (JMembers.cons k1 v1 tl1)
                      ++ '\n' :: (nSpaces j ++ '\x7d' :: rest))))))
            = '"' :: (escapeStr k0 ++ '"' :: ':' :: ' '
                  :: (renderVal ind v0 ++ ',' :: '\n'
                    :: (renderMembers ind (JMembers.cons k1 v1 tl1)
                      ++ '\n' :: (nSpaces j ++ '\x7d' :: rest)))) from by
          rw [skipWs_append _ _ hw, skipWs_append _ _ (isWs_nSpaces ind),
            skipWs_cons_false _ _ (by decide)]]
        simp only [if_pos (rfl : ('"' : Char) = '"')]
        rw [parseStrAux_escape k0
          (':' :: ' ' :: (renderVal ind v0 ++ ',' :: '\n'
            :: (renderMembers ind (JMembers.cons k1 v1 tl1)
              ++ '\n' :: (nSpaces j ++ '\x7d' :: rest))))]
        simp only []
        rw [skipWs_cons_false _ _ (by decide)]
        simp only [if_pos (rfl : (':' : Char) = ':')]
        rw [parseVal_ws1 fuel ' ' _ (by decide)]
        rw [ihV v0 ind _ hv0 (by rfl)]
        simp only []
        rw [skipWs_cons_false _ _ (by decide)]
        have hmem := ihM k1 v1 tl1 ind j ['\n'] rest
          (by intro c hc; simp at hc; rw [hc]; decide) hfl1
        rw [List.singleton_append] at hmem
        simp [hmem]

mutual

theorem fuelV_le_render (ind : Nat) (v : JVal) : fuelV v ≤ (renderVal ind v).length := by
  cases v with
  | jnull => simp [fuelV, renderVal]
  | jbool b => cases b <;> simp [fuelV, renderVal]
  | jint n =>
    obtain ⟨c, t, hct, _⟩ :=
      (by by_cases hneg : n < 0
          · exact ⟨'-', natToChars n.natAbs, by simp [renderVal, intToChars, hneg], trivial⟩
          · obtain ⟨c, t, hct, _⟩ := natToChars_head n.toNat
            exact ⟨c, t, by simp [renderVal, intToChars, hneg, hct], trivial⟩ :
        ∃ c t, renderVal ind (JVal.jint n) = c :: t ∧ True)
    rw [hct]
    simp [fuelV]
  | jstr s => simp [fuelV, renderVal]
  | jarr xs =>
    cases xs with
    | nil => simp [fuelV, fuelI, renderVal]
    | cons v0 tl =>
      have h := fuelI_le_render (ind + 2) (JList.cons v0 tl)
      simp only [fuelV, renderVal, List.length_cons, List.length_append]
      omega
  | jobj ms =>
    cases ms with
    | nil => simp [fuelV, fuelM, renderVal]
    | cons k0 v0 tl =>
      have h := fuelM_le_render (ind + 2) (JMembers.cons k0 v0 tl)
      simp only [fuelV, renderVal, List.length_cons, List.length_append]
      omega

theorem fuelI_le_render (ind : Nat) (xs : JList) :
    fuelI xs ≤ (renderItems ind xs).length + 1 := by
  cases xs with
  | nil => simp [fuelI]
  | cons v0 tl =>
    have hv := fuelV_le_render ind v0
    cases tl with
    | nil =>
      simp only [fuelI, renderItems, List.length_append]
      omega
    | cons v1 tl1 =>
      have ht := fuelI_le_render ind (JList.cons v1 tl1)
      simp only [fuelI, renderItems, List.length_append, List.length_cons] at ht ⊢
      omega

theorem fuelM_le_render (ind : Nat) (ms : JMembers) :
    fuelM ms ≤ (renderMembers ind ms).length + 1 := by
  cases ms with
  | nil => simp [fuelM]
  | cons k0 v0 tl =>
    have hv := fuelV_le_render ind v0
    cases tl with
    | nil =>
      simp only [fuelM, renderMembers, List.length_append, List.length_cons]
      omega
    | cons k1 v1 tl1 =>
      have ht := fuelM_le_render ind (JMembers.cons k1 v1 tl1)
      simp only [fuelM, renderMembers, List.length_append, List.length_cons] at ht ⊢
      omega

end

/-- Round trip: deserializing a serialized payload returns the payload. -/
theorem pyJson_roundtrip (v : JVal) : pyJsonLoads (pyJsonDumps v) = some v := by
  have hfuel : fuelV v ≤ (renderVal 0 v).length + 1 :=
    le_trans (fuelV_le_render 0 v) (Nat.le_succ _)
  have h := (parse_render ((renderVal 0 v).length + 1)).1 v 0 [] hfuel rfl
  rw [List.append_nil] at h
  rw [pyJsonLoads, pyJsonDumps, h]
  rfl

/-! ## Claims about the command runner -/

/-- C10: running an empty command does not attempt execution and returns a
skipped result with reason empty-command, return code 0 and empty output,
a reason outside the spec's closed reason set. -/
theorem c10_empty_command_skip (dryRun : Bool) (policy : SandboxPolicy)
    (whichOk : String → Bool) (exec : List String → ExecOutcome) :
    (CommandRunner.run dryRun policy whichOk exec []).skipped = true
    ∧ (CommandRunner.run dryRun policy whichOk exec []).reason = some "empty-command"
    ∧ (CommandRunner.run dryRun policy whichOk exec []).return_code = 0
    ∧ (CommandRunner.run dryRun policy whichOk exec []).stdout = ""
    ∧ (CommandRunner.run dryRun policy whichOk exec []).stderr = ""
    ∧ "empty-command" ∉ (["blocked-package-install", "blocked-cli", "dry-run",
        "missing-executable", "os-error"] : List String) :=
  ⟨rfl, rfl, rfl, rfl, rfl, by decide⟩

/-- C2: a command matching a gated prefix while the corresponding policy
flag is false is skipped with a blocking reason, return code 0 and empty
output, for every which oracle and every exec oracle (the executable need
not exist). -/
theorem c2_blocked_command (dryRun : Bool) (policy : SandboxPolicy)
    (whichOk : String → Bool) (exec : List String → ExecOutcome) (cmd : List String)
    (h : (PACKAGE_INSTALL_PREFIXES.any (fun p => p.isPrefixOf cmd) = true
            ∧ policy.allow_package_installs = false)
       ∨ (CLI_TOOL_PREFIXES.any (fun p => p.isPrefixOf cmd) = true
            ∧ policy.allow_cli_tools = false)) :
    (CommandRunner.run dryRun policy whichOk exec cmd).skipped = true
    ∧ ((CommandRunner.run dryRun policy whichOk exec cmd).reason
          = some "blocked-package-install"
        ∨ (CommandRunner.run dryRun policy whichOk exec cmd).reason = some "blocked-cli")
    ∧ (CommandRunner.run dryRun policy whichOk exec cmd).return_code = 0
    ∧ (CommandRunner.run dryRun policy whichOk exec cmd).stdout = ""
    ∧ (CommandRunner.run dryRun policy whichOk exec cmd).stderr = "" := by
  cases cmd with
  | nil =>
    exfalso
    rcases h with ⟨h1, _⟩ | ⟨h1, _⟩ <;> exact absurd h1 (by decide)
  | cons e args =>
    by_cases hp : (PACKAGE_INSTALL_PREFIXES.any (fun p => p.isPrefixOf (e :: args))
        && !policy.allow_package_installs) = true
    · have hsr : CommandRunner.skip_reason policy whichOk (e :: args)
          = some "blocked-package-install" := by
        rw [CommandRunner.skip_reason, if_pos hp]
      simp [CommandRunner.run, hsr]
    · have hcli : (CLI_TOOL_PREFIXES.any (fun p => p.isPrefixOf (e :: args))
          && !policy.allow_cli_tools) = true := by
        rcases h with ⟨h1, h2⟩ | ⟨h1, h2⟩
        · exact absurd (by rw [h1, h2]; rfl) hp
        · rw [h1, h2]; rfl
      have hsr : CommandRunner.skip_reason policy whichOk (e :: args) = some "blocked-cli" := by
        rw [CommandRunner.skip_reason, if_neg hp, if_pos hcli]
      simp [CommandRunner.run, hsr]

theorem c2_blocked_command_witness :
    (CommandRunner.run false {} (fun _ => false)
        (fun _ => ExecOutcome.fileNotFound "No such file")
        ["python", "-m", "pip", "install", "requests"]).skipped = true
    ∧ ((CommandRunner.run false {} (fun _ => false)
          (fun _ => ExecOutcome.fileNotFound "No such file")
          ["python", "-m", "pip", "install", "requests"]).reason
            = some "blocked-package-install"
        ∨ (CommandRunner.run false {} (fun _ => false)
            (fun _ => ExecOutcome.fileNotFound "No such file")
            ["python", "-m", "pip", "install", "requests"]).reason = some "blocked-cli")
    ∧ (CommandRunner.run false {} (fun _ => false)
        (fun _ => ExecOutcome.fileNotFound "No such file")
        ["python", "-m", "pip", "install", "requests"]).return_code = 0
    ∧ (CommandRunner.run false {} (fun _ => false)
        (fun _ => ExecOutcome.fileNotFound "No such file")
        ["python", "-m", "pip", "install", "requests"]).stdout = ""
    ∧ (CommandRunner.run false {} (fun _ => false)
        (fun _ => ExecOutcome.fileNotFound "No such file")
        ["python", "-m", "pip", "install", "requests"]).stderr = "" :=
  c2_blocked_command false {} (fun _ => false)
    (fun _ => ExecOutcome.fileNotFound "No such file")
    ["python", "-m", "pip", "install", "requests"] (Or.inl ⟨by decide, rfl⟩)

/-- C6 counterexample: in dry-run mode a policy-gated command is skipped
with reason blocked-package-install, not dry-run, so not every command
returns reason dry-run in dry-run mode. -/
theorem c6_dry_run_reason_cx :
    (CommandRunner.run true {} (fun _ => true)
        (fun _ => ExecOutcome.completed 0 "" "")
        ["python", "-m", "pip", "install", "requests"]).reason
      = some "blocked-package-install"
    ∧ (some "blocked-package-install" : Option String) ≠ some "dry-run" :=
  ⟨rfl, by decide⟩

/-- C6 (amended): in dry-run mode, every command that the skip
classification does not already catch (empty, policy-blocked, or failing
the executable pre-check) is skipped with reason dry-run, return code 0
and empty output, and the log records the command that would have run. -/
theorem c6_dry_run_unblocked (policy : SandboxPolicy) (whichOk : String → Bool)
    (exec : List String → ExecOutcome) (cmd : List String)
    (h : CommandRunner.skip_reason policy whichOk cmd = none) :
    CommandRunner.run true policy whichOk exec cmd
      = { command := cmd, return_code := 0, stdout := "", stderr := "", skipped := true,
          reason := some "dry-run",
          logText := "[dry-run] command skipped: " ++ joinSpace cmd ++ "\n" } := by
  simp [CommandRunner.run, h]

theorem c6_dry_run_unblocked_witness :
    CommandRunner.run true {} (fun _ => true) (fun _ => ExecOutcome.completed 0 "" "")
        ["python", "--version"]
      = { command := ["python", "--version"], return_code := 0, stdout := "", stderr := "",
          skipped := true, reason := some "dry-run",
          logText := "[dry-run] command skipped: "
            ++ joinSpace ["python", "--version"] ++ "\n" } :=
  c6_dry_run_unblocked {} (fun _ => true) (fun _ => ExecOutcome.completed 0 "" "")
    ["python", "--version"] rfl

/-! ## Claims about step rows -/

/-- C9 counterexample: a step failed through record_step_failed is a
reachable terminal row with no output payload, so output presence is not
equivalent to having a terminal status. -/
theorem c9_output_iff_terminal_cx :
    SQLiteRunStore.StepReach
      (SQLiteRunStore.record_step_failed_row SQLiteRunStore.record_step_start_row "boom")
    ∧ (SQLiteRunStore.record_step_failed_row
        SQLiteRunStore.record_step_start_row "boom").status = "failed"
    ∧ (SQLiteRunStore.record_step_failed_row
        SQLiteRunStore.record_step_start_row "boom").output_payload = none
    ∧ ¬ (((SQLiteRunStore.record_step_failed_row
            SQLiteRunStore.record_step_start_row "boom").output_payload.isSome = true)
          ↔ ((SQLiteRunStore.record_step_failed_row
                SQLiteRunStore.record_step_start_row "boom").status = "succeeded"
              ∨ (SQLiteRunStore.record_step_failed_row
                  SQLiteRunStore.record_step_start_row "boom").status = "failed")) :=
  ⟨SQLiteRunStore.StepReach.failed _ _ SQLiteRunStore.StepReach.start, rfl, rfl, by decide⟩

/-- C9 (amended): for every reachable step row, a running step has no
output payload, and an output payload is present only on a terminal step
(succeeded or failed); a step failed through record_step_failed is
terminal without an output payload, so presence is one-directional. -/
theorem c9_output_only_when_terminal (r : StepRowM) (h : SQLiteRunStore.StepReach r) :
    (r.status = "running" → r.output_payload = none)
    ∧ (r.output_payload.isSome = true →
        r.status = "succeeded" ∨ r.status = "failed") := by
  induction h with
  | start => exact ⟨fun _ => rfl, by simp [SQLiteRunStore.record_step_start_row]⟩
  | complete r output status hr hst ih =>
    constructor
    · intro hrun
      rcases hst with h1 | h1 <;>
        simp [SQLiteRunStore.record_step_complete_row, h1] at hrun
    · intro _
      simpa [SQLiteRunStore.record_step_complete_row] using hst
  | failed r e hr ih =>
    constructor
    · intro hrun
      simp [SQLiteRunStore.record_step_failed_row] at hrun
    · intro _
      right
      rfl

theorem c9_output_only_when_terminal_witness :
    (SQLiteRunStore.record_step_start_row.status = "running" →
      SQLiteRunStore.record_step_start_row.output_payload = none)
    ∧ (SQLiteRunStore.record_step_start_row.output_payload.isSome = true →
        SQLiteRunStore.record_step_start_row.status = "succeeded"
        ∨ SQLiteRunStore.record_step_start_row.status = "failed") :=
  c9_output_only_when_terminal SQLiteRunStore.record_step_start_row
    SQLiteRunStore.StepReach.start

/-! ## Claims about the run controller -/

/-- C5: a dry run in which no agent fails skips packaging entirely
(packaging is None) and still finishes with status succeeded. -/
theorem c5_dry_run_skips_packaging (agents : List CtrlAgent) (pkg : CtrlPackaging)
    (h : (RunControllerSpec.ctrlLoop agents [] "succeeded").2 = "succeeded") :
    (RunControllerSpec.execute true agents pkg).packaging = none
    ∧ (RunControllerSpec.execute true agents pkg).status = "succeeded" := by
  constructor <;> simp [RunControllerSpec.execute, h]

theorem c5_dry_run_skips_packaging_witness :
    (RunControllerSpec.execute true c5Agents
        { status := "succeeded", output_path := ["dist", "x.zip"] }).packaging = none
    ∧ (RunControllerSpec.execute true c5Agents
        { status := "succeeded", output_path := ["dist", "x.zip"] }).status = "succeeded" :=
  c5_dry_run_skips_packaging c5Agents
    { status := "succeeded", output_path := ["dist", "x.zip"] } rfl

/-! ## Filesystem frame lemmas -/

theorem fsLookup_write_self (fs : FS) (p : FsPath) (n : FsNode) :
    fsLookup (fsWrite fs p n) p = some n := by
  simp [fsWrite, fsLookup]

theorem fsLookup_erase_other (fs : FS) (p q : FsPath) (h : p ≠ q) :
    fsLookup (fsErase fs p) q = fsLookup fs q := by
  induction fs with
  | nil => rfl
  | cons e rest ih =>
    obtain ⟨r, n⟩ := e
    by_cases hr : r = p
    · subst hr
      rw [fsErase, if_pos rfl, ih, fsLookup, if_neg h]
    · rw [fsErase, if_neg hr, fsLookup, fsLookup]
      by_cases hq : r = q
      · rw [if_pos hq, if_pos hq]
      · rw [if_neg hq, if_neg hq, ih]

theorem fsLookup_write_other (fs : FS) (p q : FsPath) (n : FsNode) (h : p ≠ q) :
    fsLookup (fsWrite fs p n) q = fsLookup fs q := by
  rw [fsWrite, fsLookup, if_neg h, fsLookup_erase_other fs p q h]

theorem fsLookup_eraseDir_outside (fs : FS) (d p : FsPath) (h : d.isPrefixOf p = false) :
    fsLookup (fsEraseDir fs d) p = fsLookup fs p := by
  induction fs with
  | nil => rfl
  | cons e rest ih =>
    obtain ⟨q, n⟩ := e
    by_cases hq : d.isPrefixOf q
    · have hqp : q ≠ p := by
        intro he
        rw [he, h] at hq
        exact absurd hq (by decide)
      rw [fsEraseDir, if_pos hq, ih, fsLookup, if_neg hqp]
    · rw [fsEraseDir, if_neg hq, fsLookup, fsLookup]
      by_cases hqp : q = p
      · rw [if_pos hqp, if_pos hqp]
      · rw [if_neg hqp, if_neg hqp, ih]

theorem isPrefixOf_append_self (d x : List String) : d.isPrefixOf (d ++ x) = true := by
  induction d with
  | nil => simp [List.isPrefixOf]
  | cons a as ih => simpa [List.isPrefixOf] using ih

theorem fsLookup_extract_outside (entries : List (FsPath × List Char)) (dest : FsPath)
    (fs : FS) (p : FsPath) (h : dest.isPrefixOf p = false) :
    fsLookup (extractZip entries dest fs) p = fsLookup fs p := by
  induction entries generalizing fs with
  | nil => rfl
  | cons e tl ih =>
    rw [extractZip, List.foldl_cons]
    have hne : dest ++ e.1 ≠ p := by
      intro he
      rw [← he, isPrefixOf_append_self] at h
      exact absurd h (by decide)
    rw [show (List.foldl (fun acc e => fsWrite acc (dest ++ e.1) (FsNode.text e.2))
        (fsWrite fs (dest ++ e.1) (FsNode.text e.2)) tl)
      = extractZip tl dest (fsWrite fs (dest ++ e.1) (FsNode.text e.2)) from rfl]
    rw [ih, fsLookup_write_other _ _ _ _ hne]

theorem filesUnder_erase_outside (fs : FS) (sp target : FsPath)
    (h : target.isPrefixOf sp = false) :
    filesUnder (fsErase fs sp) target = filesUnder fs target := by
  have h2 : ¬ target <+: sp := by
    rw [← List.isPrefixOf_iff_prefix]
    simp [h]
  induction fs with
  | nil => rfl
  | cons e rest ih =>
    obtain ⟨q, n⟩ := e
    by_cases hq : q = sp
    · subst hq
      rw [fsErase, if_pos rfl, ih]
      cases n with
      | zip es => simp [filesUnder, List.filterMap_cons]
      | text c => simp [filesUnder, List.filterMap_cons, h2]
    · rw [fsErase, if_neg hq]
      cases n with
      | zip es => simpa [filesUnder, List.filterMap_cons] using ih
      | text c =>
        by_cases hin : target <+: q ∧ ¬ q = target
        · simpa [filesUnder, List.filterMap_cons, hin] using ih
        · simpa [filesUnder, List.filterMap_cons, hin] using ih

/-! ## Claims about snapshots -/

/-- C7 counterexample: SnapshotManager.create_snapshot of
kimi_coding_agent has no missing-target check; on a filesystem where the
target does not exist it still writes an (empty) zip archive and returns
its path instead of None. -/
theorem c7_missing_target_snapshot_cx :
    dirExistsB [] ["missing"] = false
    ∧ (SnapshotManager.create_snapshot ["snaps"] "r9" ["missing"] []).2
        = ["snaps", "r9.zip"]
    ∧ fsLookup (SnapshotManager.create_snapshot ["snaps"] "r9" ["missing"] []).1
        ["snaps", "r9.zip"] = some (FsNode.zip []) :=
  ⟨rfl, rfl, rfl⟩

/-- C7 (amended, for WorkspaceManager.create_snapshot of kimi_agent,
assuming the snapshot path does not sit inside the target): None is
returned when the target does not exist; otherwise the run_id-named zip of
the target's files is written in the snapshot directory, replacing any
previous node at that path, and no file under the target is modified. -/
theorem c7_workspace_create_snapshot (dataDir : FsPath) (runId : String)
    (target : FsPath) (fs : FS)
    (hsp : target.isPrefixOf (WorkspaceManager.snapshotPath dataDir runId) = false) :
    (dirExistsB fs target = false →
      WorkspaceManager.create_snapshot dataDir runId target fs = (fs, none))
    ∧ (dirExistsB fs target = true →
        (WorkspaceManager.create_snapshot dataDir runId target fs).2
            = some (WorkspaceManager.snapshotPath dataDir runId)
        ∧ fsLookup (WorkspaceManager.create_snapshot dataDir runId target fs).1
            (WorkspaceManager.snapshotPath dataDir runId)
            = some (FsNode.zip (filesUnder fs target))
        ∧ ∀ p, target.isPrefixOf p = true →
            fsLookup (WorkspaceManager.create_snapshot dataDir runId target fs).1 p
              = fsLookup fs p) := by
  constructor
  · intro hmiss
    rw [WorkspaceManager.create_snapshot, if_neg (by rw [hmiss]; exact (by decide))]
  · intro hex
    rw [WorkspaceManager.create_snapshot, if_pos hex]
    refine ⟨rfl, ?_, ?_⟩
    · rw [fsLookup_write_self, filesUnder_erase_outside fs _ _ hsp]
    · intro p hp
      have hne : WorkspaceManager.snapshotPath dataDir runId ≠ p := by
        intro he
        rw [he, hp] at hsp
        exact absurd hsp (by decide)
      rw [fsLookup_write_other _ _ _ _ hne, fsLookup_erase_other _ _ _ hne]

theorem c7_workspace_create_snapshot_witness :
    (dirExistsB [(["ws", "a.txt"], FsNode.text "x".toList)] ["ws"] = false →
      WorkspaceManager.create_snapshot ["data"] "r1" ["ws"]
          [(["ws", "a.txt"], FsNode.text "x".toList)]
        = ([(["ws", "a.txt"], FsNode.text "x".toList)], none))
    ∧ (dirExistsB [(["ws", "a.txt"], FsNode.text "x".toList)] ["ws"] = true →
        (WorkspaceManager.create_snapshot ["data"] "r1" ["ws"]
            [(["ws", "a.txt"], FsNode.text "x".toList)]).2
          = some (WorkspaceManager.snapshotPath ["data"] "r1")
        ∧ fsLookup (WorkspaceManager.create_snapshot ["data"] "r1" ["ws"]
            [(["ws", "a.txt"], FsNode.text "x".toList)]).1
            (WorkspaceManager.snapshotPath ["data"] "r1")
          = some (FsNode.zip (filesUnder
              [(["ws", "a.txt"], FsNode.text "x".toList)] ["ws"]))
        ∧ ∀ p, (["ws"] : FsPath).isPrefixOf p = true →
            fsLookup (WorkspaceManager.create_snapshot ["data"] "r1" ["ws"]
                [(["ws", "a.txt"], FsNode.text "x".toList)]).1 p
              = fsLookup [(["ws", "a.txt"], FsNode.text "x".toList)] p) :=
  c7_workspace_create_snapshot ["data"] "r1" ["ws"]
    [(["ws", "a.txt"], FsNode.text "x".toList)] (by decide)

/-! ## Claims about rollback -/

/-- C1 (amended, for WorkspaceManager.stage_restore of kimi_agent):
staging a restore only writes into the per-run restores directory; every
path outside that directory — in particular every path in the live target
workspace — is left untouched. -/
theorem c1_stage_restore_frame (dataDir : FsPath) (runId : String)
    (spOpt : Option FsPath) (fs : FS) (p : FsPath)
    (h : (WorkspaceManager.restoreDir dataDir runId).isPrefixOf p = false) :
    fsLookup (WorkspaceManager.stage_restore dataDir runId spOpt fs).1 p
      = fsLookup fs p := by
  cases spOpt with
  | none => rfl
  | some sp =>
    rw [WorkspaceManager.stage_restore]
    cases hn : fsLookup fs sp with
    | none => rfl
    | some node =>
      cases node with
      | text c =>
        simp only []
        rw [fsLookup_eraseDir_outside _ _ _ h]
      | zip entries =>
        simp only []
        rw [fsLookup_extract_outside _ _ _ _ h, fsLookup_eraseDir_outside _ _ _ h]

theorem c1_stage_restore_frame_witness :
    fsLookup (WorkspaceManager.stage_restore ["data"] "r1"
        (some ["data", "snapshots", "r1.zip"])
        [(["data", "snapshots", "r1.zip"], FsNode.zip [(["a.txt"], "old".toList)]),
         (["ws", "a.txt"], FsNode.text "new".toList)]).1 ["ws", "a.txt"]
      = fsLookup
        [(["data", "snapshots", "r1.zip"], FsNode.zip [(["a.txt"], "old".toList)]),
         (["ws", "a.txt"], FsNode.text "new".toList)] ["ws", "a.txt"] :=
  c1_stage_restore_frame ["data"] "r1" (some ["data", "snapshots", "r1.zip"])
    [(["data", "snapshots", "r1.zip"], FsNode.zip [(["a.txt"], "old".toList)]),
     (["ws", "a.txt"], FsNode.text "new".toList)] ["ws", "a.txt"] (by decide)

/-- C1 counterexample, for the kimi_coding_agent pipeline: a failed run
restores the snapshot directly over the live target directory — the file
ws/app.py, rewritten by the coding agent before the testing agent raised,
is back at its pre-run content after execute, so the live target was
destructively modified by the rollback path. -/
theorem c1_live_target_modified_cx :
    (AgentOrchestrator.execute [cxWriterAgent, cxBombAgent] ["state", "snapshots"]
        ["state", "dist"] "r1" ["ws"] [] cxFs0).status = "failed"
    ∧ fsLookup (AgentOrchestrator.runLoop [cxWriterAgent, cxBombAgent] []
          (SnapshotManager.create_snapshot ["state", "snapshots"] "r1" ["ws"] cxFs0).1).fs
        ["ws", "app.py"] = some (FsNode.text "print(2)".toList)
    ∧ fsLookup (AgentOrchestrator.execute [cxWriterAgent, cxBombAgent] ["state", "snapshots"]
          ["state", "dist"] "r1" ["ws"] [] cxFs0).fs ["ws", "app.py"]
        = some (FsNode.text "print(1)".toList) :=
  ⟨rfl, rfl, rfl⟩

/-! ## Claims about the pipeline loop -/

/-- C4 counterexample: in the kimi_coding_agent pipeline an agent result's
status is ignored — a run whose first agent reports a failed result
payload still records both steps as succeeded and finishes with status
succeeded, and no partial-success status exists in RunStatus/the code. -/
theorem c4_partial_success_cx :
    (AgentOrchestrator.execute [c4FailResultAgent, c4NextAgent] ["state", "snapshots"]
        ["state", "dist"] "r2" ["ws2"] [] []).status = "succeeded"
    ∧ (AgentOrchestrator.execute [c4FailResultAgent, c4NextAgent] ["state", "snapshots"]
        ["state", "dist"] "r2" ["ws2"] [] []).status ≠ "partial-success"
    ∧ (AgentOrchestrator.execute [c4FailResultAgent, c4NextAgent] ["state", "snapshots"]
        ["state", "dist"] "r2" ["ws2"] [] []).steps.map (fun s => s.status)
        = ["succeeded", "succeeded"] :=
  ⟨rfl, by decide, rfl⟩

/-- C4 (amended): an agent that returns normally never aborts the loop —
whatever payload it returns (in particular one reporting a non-succeeded
status), the pipeline records its step as succeeded and continues with
the remaining agents on the returned state, and the overall outcome is
whatever the rest of the loop produces (never partial-success, which the
pipeline does not have). -/
theorem c4_returned_result_continues (a : AgentM) (rest : List AgentM)
    (st : SState) (fs : FS) (p : Payload) (st1 : SState) (fs1 : FS)
    (h : a.run st fs = Except.ok (p, st1, fs1)) :
    AgentOrchestrator.runLoop (a :: rest) st fs
      = { steps := ⟨a.name, "succeeded", p⟩
            :: (AgentOrchestrator.runLoop rest st1 fs1).steps,
          status := (AgentOrchestrator.runLoop rest st1 fs1).status,
          state := (AgentOrchestrator.runLoop rest st1 fs1).state,
          fs := (AgentOrchestrator.runLoop rest st1 fs1).fs } := by
  rw [AgentOrchestrator.runLoop, h]

theorem c4_returned_result_continues_witness :
    AgentOrchestrator.runLoop [c4FailResultAgent, c4NextAgent] [] []
      = { steps := ⟨"testing", "succeeded",
              [("status", "failed"), ("summary", "tests failed")]⟩
            :: (AgentOrchestrator.runLoop [c4NextAgent] [] []).steps,
          status := (AgentOrchestrator.runLoop [c4NextAgent] [] []).status,
          state := (AgentOrchestrator.runLoop [c4NextAgent] [] []).state,
          fs := (AgentOrchestrator.runLoop [c4NextAgent] [] []).fs } :=
  c4_returned_result_continues c4FailResultAgent [c4NextAgent] [] []
    [("status", "failed"), ("summary", "tests failed")] [] [] rfl

/-- Helper for C3: a failed agent loop stops at the first raising agent:
some position k has all earlier steps succeeded, step k failed, exactly
k+1 steps recorded, and the recorded names are those of the first k+1
agents in order. -/
theorem runLoop_failed_shape (agents : List AgentM) (st : SState) (fs : FS)
    (h : (AgentOrchestrator.runLoop agents st fs).status = "failed") :
    ∃ k, k < agents.length
      ∧ (AgentOrchestrator.runLoop agents st fs).steps.length = k + 1
      ∧ ((AgentOrchestrator.runLoop agents st fs).steps.take k).all
          (fun s => s.status == "succeeded") = true
      ∧ ((AgentOrchestrator.runLoop agents st fs).steps.get? k).map (fun s => s.status)
          = some "failed"
      ∧ (AgentOrchestrator.runLoop agents st fs).steps.map (fun s => s.agent_name)
          = (agents.take (k + 1)).map (fun a => a.name) := by
  induction agents generalizing st fs with
  | nil => exact absurd h (by simp [AgentOrchestrator.runLoop])
  | cons a rest ih =>
    cases har : a.run st fs with
    | error e =>
      refine ⟨0, by simp, ?_, ?_, ?_, ?_⟩ <;>
        simp [AgentOrchestrator.runLoop, har]
    | ok val =>
      obtain ⟨p, st1, fs1⟩ := val
      have h2 : (AgentOrchestrator.runLoop rest st1 fs1).status = "failed" := by
        simpa [AgentOrchestrator.runLoop, har] using h
      obtain ⟨k, hk1, hk2, hk3, hk4, hk5⟩ := ih st1 fs1 h2
      refine ⟨k + 1, by simpa using Nat.succ_lt_succ hk1, ?_, ?_, ?_, ?_⟩
      · simp [AgentOrchestrator.runLoop, har, hk2]
      · simp [AgentOrchestrator.runLoop, har, List.take_succ_cons, hk3]
      · rw [AgentOrchestrator.runLoop, har]
        exact hk4
      · simp [AgentOrchestrator.runLoop, har, List.take_succ_cons, hk5]

/-- C3: a run whose status is failed stopped at the first raising agent:
all earlier steps are recorded succeeded, the failing agent's step is
recorded failed, exactly as many steps are recorded as agents up to and
including the failing one (matching their names in order), no dist
artifact is recorded, and the run record is finalized as failed. -/
theorem c3_exception_aborts_run (agents : List AgentM) (snapDir distDir : FsPath)
    (runId : String) (target : FsPath) (st0 : SState) (fs0 : FS)
    (h : (AgentOrchestrator.execute agents snapDir distDir runId target st0 fs0).status
        = "failed") :
    ∃ k, k < agents.length
      ∧ (AgentOrchestrator.execute agents snapDir distDir runId target st0 fs0).steps.length
          = k + 1
      ∧ (((AgentOrchestrator.execute agents snapDir distDir runId target st0 fs0).steps.take
            k).all (fun s => s.status == "succeeded")) = true
      ∧ (((AgentOrchestrator.execute agents snapDir distDir runId target st0 fs0).steps.get?
            k).map (fun s => s.status)) = some "failed"
      ∧ (AgentOrchestrator.execute agents snapDir distDir runId target st0 fs0).steps.map
          (fun s => s.agent_name) = (agents.take (k + 1)).map (fun a => a.name)
      ∧ ((AgentOrchestrator.execute agents snapDir distDir runId target st0 fs0).store.all
          (fun e => ! (isArtifactEntry e))) = true
      ∧ (AgentOrchestrator.execute agents snapDir distDir runId target st0 fs0).store.getLast?
          = some (StoreEntry.runFinal runId "failed") := by
  by_cases hlp : (AgentOrchestrator.runLoop agents st0
      (SnapshotManager.create_snapshot snapDir runId target fs0).1).status = "failed"
  · obtain ⟨k, hk1, hk2, hk3, hk4, hk5⟩ := runLoop_failed_shape agents st0
      (SnapshotManager.create_snapshot snapDir runId target fs0).1 hlp
    refine ⟨k, hk1, ?_, ?_, ?_, ?_, ?_, ?_⟩
    · simpa [AgentOrchestrator.execute, hlp] using hk2
    · simpa [AgentOrchestrator.execute, hlp] using hk3
    · simpa [AgentOrchestrator.execute, hlp] using hk4
    · simpa [AgentOrchestrator.execute, hlp] using hk5
    · simp [AgentOrchestrator.execute, hlp, List.all_append, List.all_map,
        isArtifactEntry, Function.comp]
    · simp [AgentOrchestrator.execute, hlp]
      rw [← List.cons_append, List.getLast?_concat]
  · exfalso
    apply hlp
    simpa [AgentOrchestrator.execute, hlp] using h

theorem c3_exception_aborts_run_witness :
    ∃ k, k < ([cxWriterAgent, cxBombAgent] : List AgentM).length
      ∧ (AgentOrchestrator.execute [cxWriterAgent, cxBombAgent] ["state", "snapshots"]
          ["state", "dist"] "r3" ["ws"] [] cxFs0).steps.length = k + 1
      ∧ (((AgentOrchestrator.execute [cxWriterAgent, cxBombAgent] ["state", "snapshots"]
            ["state", "dist"] "r3" ["ws"] [] cxFs0).steps.take k).all
          (fun s => s.status == "succeeded")) = true
      ∧ (((AgentOrchestrator.execute [cxWriterAgent, cxBombAgent] ["state", "snapshots"]
            ["state", "dist"] "r3" ["ws"] [] cxFs0).steps.get? k).map
          (fun s => s.status)) = some "failed"
      ∧ (AgentOrchestrator.execute [cxWriterAgent, cxBombAgent] ["state", "snapshots"]
          ["state", "dist"] "r3" ["ws"] [] cxFs0).steps.map (fun s => s.agent_name)
          = (([cxWriterAgent, cxBombAgent] : List AgentM).take (k + 1)).map (fun a => a.name)
      ∧ ((AgentOrchestrator.execute [cxWriterAgent, cxBombAgent] ["state", "snapshots"]
          ["state", "dist"] "r3" ["ws"] [] cxFs0).store.all
          (fun e => ! (isArtifactEntry e))) = true
      ∧ (AgentOrchestrator.execute [cxWriterAgent, cxBombAgent] ["state", "snapshots"]
          ["state", "dist"] "r3" ["ws"] [] cxFs0).store.getLast?
          = some (StoreEntry.runFinal "r3" "failed") :=
  c3_exception_aborts_run [cxWriterAgent, cxBombAgent] ["state", "snapshots"]
    ["state", "dist"] "r3" ["ws"] [] cxFs0 rfl

/-! ## Archive lookup lemmas -/

theorem arcLookup_arcErase_other (m : Archive) (p q : FsPath) (h : p ≠ q) :
    arcLookup (arcErase m p) q = arcLookup m q := by
  induction m with
  | nil => rfl
  | cons e rest ih =>
    obtain ⟨r, c⟩ := e
    by_cases hr : r = p
    · subst hr
      rw [arcErase, if_pos rfl, ih, arcLookup, if_neg h]
    · rw [arcErase, if_neg hr, arcLookup, arcLookup]
      by_cases hq : r = q
      · rw [if_pos hq, if_pos hq]
      · rw [if_neg hq, if_neg hq, ih]

theorem arcLookup_arcWrite_self (m : Archive) (p : FsPath) (c : List Char) :
    arcLookup (arcWrite m p c) p = some c := by
  simp [arcWrite, arcLookup]

theorem arcLookup_arcWrite_other (m : Archive) (p q : FsPath) (c : List Char) (h : p ≠ q) :
    arcLookup (arcWrite m p c) q = arcLookup m q := by
  rw [arcWrite, arcLookup, if_neg h, arcLookup_arcErase_other m p q h]

/-- If every write to path p in the write list carries content c, and p is
either already mapped to c or written at least once, then after applying
all writes p maps to c. -/
theorem arcLookup_applyWrites (ws : List (FsPath × List Char)) :
    ∀ (m : Archive) (p : FsPath) (c : List Char),
      (arcLookup m p = some c ∨ (p, c) ∈ ws) →
      (∀ e ∈ ws, e.1 = p → e.2 = c) →
      arcLookup (applyWrites m ws) p = some c := by
  induction ws with
  | nil =>
    intro m p c hbase huniq
    rcases hbase with h | h
    · exact h
    · cases h
  | cons e tl ih =>
    intro m p c hbase huniq
    rw [applyWrites, List.foldl_cons]
    by_cases hep : e.1 = p
    · have hec : e.2 = c := huniq e (List.mem_cons_self e tl) hep
      refine ih (arcWrite m e.1 e.2) p c (Or.inl ?_)
        (fun x hx hxp => huniq x (List.mem_cons_of_mem e hx) hxp)
      rw [hep, hec, arcLookup_arcWrite_self]
    · refine ih (arcWrite m e.1 e.2) p c ?_
        (fun x hx hxp => huniq x (List.mem_cons_of_mem e hx) hxp)
      rcases hbase with h | h
      · exact Or.inl (by rw [arcLookup_arcWrite_other m e.1 p e.2 hep]; exact h)
      · rcases List.mem_cons.mp h with he | htl
        · exact absurd (by rw [← he]) hep
        · exact Or.inr htl

/-- C8: a JSON-typed artifact with a payload is written into the bundle at
artifacts/agent/filename as its json.dumps text, and json.loads of that
text returns the payload that was passed in (agent names and per-agent
artifact file names are unique, as produced by the orchestrator). -/
theorem c8_artifact_json_roundtrip (runId targetPath : String) (metadata : JMembers)
    (results : List AgentResultM) (logs : List (String × List Char)) (generatedAt : String)
    (r : AgentResultM) (filename : String) (art : ArtifactM) (p : JVal)
    (hr : r ∈ results) (ha : (filename, art) ∈ r.artifacts) (hp : art.payload = some p)
    (hjson : (strEndsWith art.type "json" || strEndsWith filename ".json") = true)
    (hnames : (results.map (fun x => x.name)).Nodup)
    (hkeys : ∀ x ∈ results, (x.artifacts.map Prod.fst).Nodup) :
    arcLookup (ArtifactPackager.package runId targetPath metadata results logs generatedAt)
        ["artifacts", r.name, filename] = some (pyJsonDumps p)
    ∧ pyJsonLoads (pyJsonDumps p) = some p := by
  refine ⟨?_, pyJson_roundtrip p⟩
  rw [ArtifactPackager.package]
  apply arcLookup_applyWrites
  · right
    rw [ArtifactPackager.packageWrites]
    refine List.mem_append_left _ (List.mem_append_left _ (List.mem_append_right _ ?_))
    rw [ArtifactPackager.artifactWrites]
    refine List.mem_flatMap.mpr ⟨r, hr, ?_⟩
    refine List.mem_filterMap.mpr ⟨(filename, art), ha, ?_⟩
    simp [hp, artifactContent, hjson]
  · intro e he hep
    rw [ArtifactPackager.packageWrites] at he
    rcases List.mem_append.mp he with he1 | helog
    · rcases List.mem_append.mp he1 with he2 | hesbom
      · rcases List.mem_append.mp he2 with hetop | heaw
        · simp only [List.mem_cons] at hetop
          rcases hetop with h3 | h3 | h3 | h3
          · subst h3; simp at hep
          · subst h3; simp at hep
          · subst h3; simp at hep
          · cases h3
        · rw [ArtifactPackager.artifactWrites] at heaw
          obtain ⟨r2, hr2, hkv⟩ := List.mem_flatMap.mp heaw
          obtain ⟨kv, hkvmem, hkveq⟩ := List.mem_filterMap.mp hkv
          obtain ⟨f2, a2⟩ := kv
          cases hpay : a2.payload with
          | none => simp [hpay] at hkveq
          | some p2 =>
            simp only [hpay] at hkveq
            simp only [Option.some.injEq] at hkveq
            subst hkveq
            simp only [List.cons.injEq] at hep
            obtain ⟨-, hname2, hf2, -⟩ := hep
            have hr2r : r2 = r := List.inj_on_of_nodup_map hnames hr2 hr hname2
            subst hr2r
            subst hf2
            have hkv2 : ((f2, a2) : String × ArtifactM) = (f2, art) :=
              List.inj_on_of_nodup_map (hkeys r2 hr2) hkvmem ha rfl
            have ha2 : a2 = art := (Prod.mk.injEq _ _ _ _ ▸ hkv2).2
            subst ha2
            have hp2 : p2 = p := by
              rw [hpay] at hp
              exact (Option.some.injEq _ _ ▸ hp)
            subst hp2
            simp [artifactContent, hjson]
      · simp only [List.mem_singleton] at hesbom
        subst hesbom
        simp at hep
    · obtain ⟨lg, hlg, hlge⟩ := List.mem_map.mp helog
      subst hlge
      simp at hep

theorem c8_artifact_json_roundtrip_witness :
    arcLookup (ArtifactPackager.package "r1" "/ws" JMembers.nil [c8SampleResult] [] "t0")
        ["artifacts", c8SampleResult.name, "plan.json"] = some (pyJsonDumps c8SamplePayload)
    ∧ pyJsonLoads (pyJsonDumps c8SamplePayload) = some c8SamplePayload :=
  c8_artifact_json_roundtrip "r1" "/ws" JMembers.nil [c8SampleResult] [] "t0"
    c8SampleResult "plan.json" c8SampleArtifact c8SamplePayload
    (List.mem_singleton.mpr rfl) (List.mem_singleton.mpr rfl) rfl (by decide)
    (by decide) (by intro x hx; rw [List.mem_singleton] at hx; subst hx; decide)
